import Mathlib

/-!
# clipremote: session core

A shallow embedding of the Go sources of `chocolatkey/clipremote`
(`pkg/crypto`, `pkg/packets`, `pkg/protocol`, `client.go`) together with
theorems about the obfuscation codec, the wire framing, the pairing-URL
decoder and the serial registry.

Conventions.
* A Go `byte` is a natural number below 256 and a `[]byte` or `string` is a
  list of them (`Bytes`).
* A Go `error` is an `Option String`: `none` is `nil`.
* Unsigned 32-bit arithmetic is written with an explicit `% 2 ^ 32`.
-/

namespace Clipremote

/-- A byte string: Go `[]byte` and Go `string` alike. -/
abbrev Bytes := List Nat

deriving instance DecidableEq for Except

/-- A Go `error` value: `none` is `nil`, `some msg` an error with that message. -/
abbrev Error := Option String

/-- The bytes of an ASCII literal. -/
def ascii (s : String) : Bytes := s.toList.map Char.toNat

/-! ## pkg/crypto -/

namespace crypto

/-- The key `remoteParamKey` of `crypto.go`. -/
def remoteParamKey : Bytes := [0x74, 0xB2, 0x92, 0x5B, 0x4A, 0x21, 0xDA]

/-- The key `authKey` of `crypto.go`. -/
def authKey : Bytes := [0xB6, 0xD5, 0x92, 0xC4, 0xA7, 0x83, 0xE1]

/-- The loop `for i := ...; i < len(raw); i++ { raw[i] ^= key[i%7] }`, started at
index `i` on the bytes that remain from that index on. -/
def xorFrom (key : Bytes) : Nat → Bytes → Bytes
  | _, [] => []
  | i, b :: rest => (b ^^^ key.getD (i % 7) 0) :: xorFrom key (i + 1) rest

/-- Go `ObfuscateRemoteParam`: the slice after the in-place loop has run. -/
def ObfuscateRemoteParam (raw : Bytes) : Bytes := xorFrom remoteParamKey 0 raw

/-- Go `ObfuscateAuthParam`: the slice after the in-place loop has run. -/
def ObfuscateAuthParam (raw : Bytes) : Bytes := xorFrom authKey 0 raw

end crypto

/-! ## encoding/hex -/

namespace hex

/-- The lower-case digit of a nibble (`hextable`). -/
def digit (n : Nat) : Nat := if n < 10 then 48 + n else 87 + n

/-- Go `hex.EncodeToString`. -/
def EncodeToString : Bytes → Bytes
  | [] => []
  | b :: rest => digit (b / 16) :: digit (b % 16) :: EncodeToString rest

/-- The value of a hexadecimal digit, in either case (`fromHexChar`). -/
def fromHexChar (c : Nat) : Option Nat :=
  if 48 ≤ c ∧ c ≤ 57 then some (c - 48)
  else if 97 ≤ c ∧ c ≤ 102 then some (c - 97 + 10)
  else if 65 ≤ c ∧ c ≤ 70 then some (c - 65 + 10)
  else none

/-- Go `hex.DecodeString`: `none` stands for `ErrLength` and `InvalidByteError`. -/
def DecodeString : Bytes → Option Bytes
  | [] => some []
  | [_] => none
  | a :: b :: rest =>
    match fromHexChar a, fromHexChar b, DecodeString rest with
    | some x, some y, some out => some ((x * 16 + y) :: out)
    | _, _, _ => none

end hex

/-! ## strconv, strings, bytes -/

namespace strconv

/-- The digit loop of `strconv.ParseUint` for base 10: every byte must be a
decimal digit (`invalid syntax` otherwise) and the running value must stay
below `2 ^ bitSize` (`value out of range` otherwise); the first failure met
from the left is the one reported. -/
def parseDigits (bitSize : Nat) : Bytes → Nat → Except String Nat
  | [], n => .ok n
  | c :: rest, n =>
    if 48 ≤ c ∧ c ≤ 57 then
      if n * 10 + (c - 48) < 2 ^ bitSize then parseDigits bitSize rest (n * 10 + (c - 48))
      else .error "value out of range"
    else .error "invalid syntax"

/-- Go `strconv.ParseUint(s, 10, bitSize)`. -/
def ParseUint (s : Bytes) (bitSize : Nat) : Except String Nat :=
  if s = [] then .error "invalid syntax" else parseDigits bitSize s 0

/-- Go `strconv.ParseInt(s, 10, bitSize)`: an optional sign, then `ParseUint` on
the rest, then the signed range check against `1 << (bitSize-1)`. -/
def ParseInt (s : Bytes) (bitSize : Nat) : Except String Int :=
  match s with
  | [] => .error "invalid syntax"
  | c :: rest =>
    let neg := c == 45
    let body := if c = 43 ∨ c = 45 then rest else s
    match ParseUint body bitSize with
    | .error e => .error e
    | .ok un =>
      let cutoff := 2 ^ (bitSize - 1)
      if !neg && decide (cutoff ≤ un) then .error "value out of range"
      else if neg && decide (cutoff < un) then .error "value out of range"
      else .ok (if neg then - (un : Int) else (un : Int))

/-- The digits of `n`, most significant first, pushed in front of `acc`. -/
def formatBits : Nat → Nat → Bytes → Bytes
  | 0, _, acc => acc
  | fuel + 1, n, acc =>
    if n < 10 then (48 + n) :: acc else formatBits fuel (n / 10) ((48 + n % 10) :: acc)

/-- Decimal text of an unsigned integer (`%d`, `strconv.FormatUint(n, 10)`). -/
def FormatUint (n : Nat) : Bytes := formatBits (n + 1) n []

end strconv

/-- Go `bytes.HasPrefix` / `strings.HasPrefix`. -/
def HasPrefix : Bytes → Bytes → Bool
  | _, [] => true
  | [], _ :: _ => false
  | a :: s, b :: p => a == b && HasPrefix s p

/-- The first occurrence of a non-empty `sep` in `s`: the bytes before it and
the bytes after it (`bytes.Index` followed by the two slicings of `genSplit`). -/
def cutAt (sep : Bytes) : Bytes → Option (Bytes × Bytes)
  | [] => none
  | b :: rest =>
    if HasPrefix (b :: rest) sep then some ([], (b :: rest).drop sep.length)
    else match cutAt sep rest with
      | some (h, t) => some (b :: h, t)
      | none => none

/-- Go `bytes.SplitN(s, sep, n)` for a non-empty `sep` and `n ≥ 0`: at most `n`
pieces, the last one being the unsplit remainder. -/
def SplitN (sep : Bytes) : Nat → Bytes → List Bytes
  | 0, _ => []
  | 1, s => [s]
  | n + 2, s =>
    match cutAt sep s with
    | none => [s]
    | some (h, t) => h :: SplitN sep (n + 1) t

/-- Go `strings.Split(s, sep)` for a one-byte `sep`. -/
def Split (sep : Nat) : Bytes → List Bytes
  | [] => [[]]
  | b :: rest =>
    if b = sep then [] :: Split sep rest
    else match Split sep rest with
      | [] => [[b]]
      | f :: fs => (b :: f) :: fs

/-! ## pkg/protocol, pkg/commands -/

namespace protocol

def DetailSeparator : Nat := 0x0b
def CommandTerminator : Nat := 0x00
def CommandParamSeparator : Bytes := [0x1e, 36]

/-- The marker `ReconnectionRequest`: two opening braces, two parentheses and two
brackets around `reconnection request marker`, then CR and LF. -/
def ReconnectionRequest : Bytes :=
  [123, 123, 40, 40, 91, 91] ++ ascii "reconnection request marker" ++
    [93, 93, 41, 41, 125, 125, 13, 10]

end protocol

namespace commands

def TellHeartbeat : Bytes := ascii "TellHeartbeat"
def Authenticate : Bytes := ascii "Authenticate"

end commands

/-! ## encoding/json

`json.Marshal` and `json.Unmarshal` belong to the Go standard library. The
development is parametric in them: `J` is the type of the non-nil values an
`interface{}` detail can hold. -/

structure JSON (J : Type) where
  /-- The text `json.Marshal` produces; the empty text stands for a failed marshalling. -/
  Marshal : J → Bytes
  /-- The value `json.Unmarshal(text, &v)` leaves in an empty `interface{}`:
  `none` is an error, `some none` is the nil interface left by the text `null`. -/
  Unmarshal : Bytes → Option (Option J)
  /-- The detail value a Go `[]string` is. -/
  ofStrings : List Bytes → J
  /-- The detail value a Go `map[string]bool` is. -/
  ofFlags : List (Bytes × Bool) → J

/-! ## net.Conn and bufio.Writer -/

/-- A TCP connection as the client sees it. `written` collects what the socket
accepted. When `writeErr` is set every `Write` fails with it. `reads` lists what
the successive `Read` calls will deliver (a chunk of bytes or an error);
once it is used up `Read` reports `EOF`. -/
structure Conn where
  written : Bytes
  writeErr : Option String
  reads : List (Except String Bytes)
  closed : Bool
deriving DecidableEq

/-- Go `conn.Write(p)`; a short write is not modelled. -/
def Conn.Write (c : Conn) (p : Bytes) : Conn × Option String :=
  if c.closed then (c, some "use of closed network connection")
  else match c.writeErr with
    | some e => (c, some e)
    | none => ({ c with written := c.written ++ p }, none)

/-- Go `conn.Close()`. -/
def Conn.Close (c : Conn) : Conn × Option String :=
  if c.closed then (c, some "use of closed network connection")
  else ({ c with closed := true }, none)

namespace bufio

/-- A `bufio.Writer`: the underlying writer, the buffered bytes (`buf[0:n]`),
the buffer size and the sticky error. -/
structure Writer where
  wr : Conn
  buf : Bytes
  size : Nat
  err : Option String
deriving DecidableEq

def NewWriterSize (w : Conn) (size : Nat) : Writer := ⟨w, [], size, none⟩

def Writer.Available (b : Writer) : Nat := b.size - b.buf.length

/-- Go `(*Writer).Flush`. -/
def Writer.Flush (b : Writer) : Writer × Option String :=
  match b.err with
  | some e => (b, some e)
  | none =>
    if b.buf.length = 0 then (b, none)
    else match b.wr.Write b.buf with
      | (w, some e) => ({ b with wr := w, err := some e }, some e)
      | (w, none) => ({ b with wr := w, buf := [] }, none)

/-- Go `(*Writer).WriteByte`. -/
def Writer.WriteByte (b : Writer) (c : Nat) : Writer × Option String :=
  match b.err with
  | some e => (b, some e)
  | none =>
    if b.Available ≤ 0 then
      match b.Flush with
      | (b1, some _) => (b1, b1.err)
      | (b1, none) => ({ b1 with buf := b1.buf ++ [c] }, none)
    else ({ b with buf := b.buf ++ [c] }, none)

/-- The loop of `(*Writer).WriteString`,
`for len(s) > b.Available() && b.err == nil { copy; b.Flush() }`,
run for at most `fuel` rounds; it returns the writer and what is left of `s`. -/
def Writer.writeStringLoop : Nat → Writer → Bytes → Writer × Bytes
  | 0, b, s => (b, s)
  | fuel + 1, b, s =>
    if b.Available < s.length ∧ b.err = none then
      let n := min b.Available s.length
      writeStringLoop fuel ({ b with buf := b.buf ++ s.take n }).Flush.1 (s.drop n)
    else (b, s)

/-- Go `(*Writer).WriteString`. Each round but the first moves a whole buffer, so
`len(s) + 1` rounds are never used up. -/
def Writer.WriteString (b : Writer) (s : Bytes) : Writer × Option String :=
  match writeStringLoop (s.length + 1) b s with
  | (b1, s1) =>
    match b1.err with
    | some e => (b1, some e)
    | none => ({ b1 with buf := b1.buf ++ s1 }, none)

end bufio

/-- Go `conn.Read(p)` with `len(p) = n`: the next chunk, or as much of it as fits. -/
def Conn.Read (c : Conn) (n : Nat) : Conn × Bytes × Error :=
  if c.closed then (c, [], some "use of closed network connection")
  else match c.reads with
    | [] => (c, [], some "EOF")
    | .error e :: rest => ({ c with reads := rest }, [], some e)
    | .ok chunk :: rest =>
      if chunk.length ≤ n then ({ c with reads := rest }, chunk, none)
      else ({ c with reads := .ok (chunk.drop n) :: rest }, chunk.take n, none)

/-- The number of `Read` calls and bytes the connection still holds. -/
def Conn.pending (c : Conn) : Nat :=
  c.reads.foldr (fun x n => n + 1 + (match x with | .ok chunk => chunk.length | .error _ => 0)) 0

/-- The position of the first `delim` in `s` (`bytes.IndexByte`). -/
def IndexByte (delim : Nat) : Bytes → Option Nat
  | [] => none
  | b :: rest => if b = delim then some 0 else (IndexByte delim rest).map (· + 1)

namespace bufio

/-- A `bufio.Reader`: the underlying reader, the bytes read ahead and not yet
handed out (`buf[r:w]`), the buffer size and the pending read error. -/
structure Reader where
  rd : Conn
  buf : Bytes
  size : Nat
  err : Error
deriving DecidableEq

/-- Go `bufio.NewReader`: an empty buffer of the default size. -/
def NewReader (rd : Conn) : Reader := ⟨rd, [], 4096, none⟩

/-- The rounds of `(*Reader).ReadBytes(delim)`, with the full buffers collected
so far in `acc`: hand out up to the first `delim` in the buffer; failing that
return everything with the pending error; failing that set a full buffer aside
or fill the buffer by one `Read`. Bytes read ahead past `delim` stay in the
reader. The retry limit on empty reads is not modelled. -/
def Reader.readBytesLoop (delim : Nat) : Nat → Reader → Bytes → Reader × Bytes × Error
  | 0, r, acc => (r, acc, some "no progress")
  | fuel + 1, r, acc =>
    match IndexByte delim r.buf with
    | some i => ({ r with buf := r.buf.drop (i + 1) }, acc ++ r.buf.take (i + 1), none)
    | none =>
      match r.err with
      | some e => ({ r with buf := [], err := none }, acc ++ r.buf, some e)
      | none =>
        if r.size ≤ r.buf.length then readBytesLoop delim fuel { r with buf := [] } (acc ++ r.buf)
        else
          match r.rd.Read (r.size - r.buf.length) with
          | (rd, got, e) => readBytesLoop delim fuel { r with rd := rd, buf := r.buf ++ got, err := e } acc

/-- Go `(*Reader).ReadBytes(delim)`. Of two successive rounds one at least
consumes a byte or a `Read` of the connection, which bounds the rounds. -/
def Reader.ReadBytes (r : Reader) (delim : Nat) : Reader × Bytes × Error :=
  Reader.readBytesLoop delim (2 * r.rd.pending + 4) r []

end bufio

/-! ## pkg/packets -/

namespace packets

def TypeClientCommand : Nat := 0x01
def TypeServerResponseError : Nat := 0x15
def TypeServerResponseSuccess : Nat := 0x06

/-- The type `ServerCommand`; the field `Type` is spelled `Typ`. A nil `Detail`
and a nil `Data` are `none`. -/
structure ServerCommand (J : Type) where
  Typ : Nat
  Command : Bytes
  Serial : Nat
  Detail : Option J
  Data : Option Bytes
deriving DecidableEq

/-- The callbacks (`ClientCommandCallback`) of the package. `sink id` is a
completion supplied by an embedder, the closure of `SendCommandSync` included:
calling it records the delivery and does not touch the session. The others are
the closures `client.go` builds: `authenticate`, `reauthenticate` and
`heartbeat` are what `Authenticate`, `Reauthenticate` and `Heartbeat` hand to
`SendCommand` around the callback they were given; `reconnected` is what
`reconnect` gives to `Reauthenticate`; `keepaliveHeartbeat` is what `keepalive`
gives to `Heartbeat` and `keepaliveReauth` what that closure gives to
`Reauthenticate`. -/
inductive ClientCommandCallback where
  | sink (id : Nat)
  | authenticate (callback : ClientCommandCallback) (newPassword : Bytes)
  | reauthenticate (callback : ClientCommandCallback)
  | heartbeat (callback : ClientCommandCallback)
  | reconnected
  | keepaliveHeartbeat
  | keepaliveReauth
deriving DecidableEq

structure ClientCommand (J : Type) where
  Command : Bytes
  Serial : Nat
  Detail : Option J
  Callback : ClientCommandCallback

/-- Go `ClientCommand.String`; `none` is the `panic(err)` on an empty marshalling. -/
def ClientCommand.String {J : Type} (json : JSON J) (p : ClientCommand J) : Option Bytes :=
  let detailStr : Option Bytes :=
    match p.Detail with
    | none => some []
    | some d => if (json.Marshal d).length = 0 then none else some (json.Marshal d)
  match detailStr with
  | none => none
  | some d =>
    some (ascii "$tcp_remote_command_protocol_version=1.0" ++ protocol.CommandParamSeparator ++
      ascii "command=" ++ p.Command ++ protocol.CommandParamSeparator ++
      ascii "serial=" ++ strconv.FormatUint p.Serial ++ protocol.CommandParamSeparator ++
      ascii "detail=" ++ d ++ [protocol.CommandParamSeparator.getD 0 0])

/-- Go `ClientCommand.Write`: the connection afterwards and the returned error;
`none` when `String` panics. The result of the closing `b.Flush()` is dropped,
as in the source. -/
def ClientCommand.Write {J : Type} (json : JSON J) (p : ClientCommand J) (w : Conn) :
    Option (Conn × Error) :=
  match (bufio.NewWriterSize w 8192).WriteByte TypeClientCommand with
  | (b, some e) => some (b.wr, some ("failed writing command packet type: " ++ e))
  | (b, none) =>
    match p.String json with
    | none => none
    | some s =>
      match b.WriteString s with
      | (b, some e) => some (b.wr, some ("failed writing command packet body: " ++ e))
      | (b, none) =>
        match b.WriteByte protocol.CommandTerminator with
        | (b, some e) => some (b.wr, some ("failed writing command packet terminator: " ++ e))
        | (b, none) => some (b.Flush.1.wr, none)

/-- Go `(*ServerCommand).Parse`: the receiver after a successful parse, or the
error. The texts the source appends to some messages are left out. `SplitN`
with a count of 2 returns at least one piece; the empty case stands for
totality only. -/
def ServerCommand.Parse {J : Type} (json : JSON J) (p : ServerCommand J) (data : Bytes) :
    Except String (ServerCommand J) :=
  if data.length < 72 then .error "server returned packet that is too short"
  else if data.getD 0 0 ≠ TypeServerResponseSuccess ∧
      data.getD 0 0 ≠ TypeServerResponseError ∧
      data.getD 0 0 ≠ TypeClientCommand then
    .error "server returned unknown packet type"
  else
    let p := { p with Typ := data.getD 0 0 }
    if data.getD 1 0 ≠ 36 then .error "server returned malformed packet"
    else if data.getD (data.length - 1) 0 ≠ protocol.CommandTerminator then
      .error "server returned malformed packet"
    else
      match SplitN protocol.CommandParamSeparator 4 ((data.take (data.length - 2)).drop 2) with
      | [f0, f1, f2, f3] =>
        if f0 ≠ ascii "tcp_remote_command_protocol_version=1.0" then
          .error "server returned packet with invalid protocol version"
        else if !HasPrefix f1 (ascii "command=") then
          .error "server returned packet with invalid command part"
        else
          let p := { p with Command := f1.drop 8 }
          if !HasPrefix f2 (ascii "serial=") then
            .error "server returned packet with invalid serial part"
          else
            match strconv.ParseUint (f2.drop 7) 32 with
            | .error e => .error ("server returned packet with invalid serial number: " ++ e)
            | .ok serial =>
              let p := { p with Serial := serial }
              if !HasPrefix f3 (ascii "detail=") then
                .error "server returned packet with invalid detail part"
              else
                match SplitN [protocol.DetailSeparator] 2 (f3.drop 7) with
                | [] => .ok p
                | head :: tail =>
                  if 2 < head.length then
                    match json.Unmarshal head with
                    | none => .error "server returned packet with invalid detail JSON"
                    | some d =>
                      match tail with
                      | [] => .ok { p with Detail := d }
                      | t :: _ => .ok { p with Detail := d, Data := some t }
                  else .ok p
      | _ => .error "server returned packet with invalid amount of fragments"

end packets

/-! ## net/url -/

namespace url

/-- The parts of a parsed URL that `DecodeConfig` reads. -/
structure URL where
  Scheme : Bytes
  Opaque : Bytes
  Host : Bytes
  Path : Bytes
  RawQuery : Bytes
deriving DecidableEq

/-- Go `strings.Cut(s, sep)` for a one-byte `sep`: before, after, found. -/
def Cut (sep : Nat) : Bytes → Bytes × Bytes × Bool
  | [] => ([], [], false)
  | b :: rest =>
    if b = sep then ([], rest, true)
    else match Cut sep rest with
      | (h, t, f) => (b :: h, t, f)

/-- The function `getScheme`, scanning the part of the URL that remains after the letters,
digits and signs `seen` so far: `none` is the error `missing protocol scheme`,
otherwise the scheme and what follows it. -/
def getScheme (rawURL : Bytes) : Bytes → Bytes → Option (Bytes × Bytes)
  | _, [] => some ([], rawURL)
  | seen, c :: rest =>
    if (97 ≤ c ∧ c ≤ 122) ∨ (65 ≤ c ∧ c ≤ 90) then getScheme rawURL (seen ++ [c]) rest
    else if (48 ≤ c ∧ c ≤ 57) ∨ c = 43 ∨ c = 45 ∨ c = 46 then
      if seen = [] then some ([], rawURL) else getScheme rawURL (seen ++ [c]) rest
    else if c = 58 then
      if seen = [] then none else some (seen, rest)
    else some ([], rawURL)

/-- The authority after its last `@` (the host, with the port if any). -/
def hostOf (authority : Bytes) : Bytes :=
  ((Split 64 authority).getLast?).getD []

/-- Go `url.Parse`, as far as `DecodeConfig` depends on it: control bytes are
refused, the fragment is cut off at `#`, the scheme is taken by `getScheme`,
the query is cut off at the first `?`, a rest that does not start with `/`
after a scheme is opaque, and the authority is what stands between `//` and
the next `/`. The validation and unescaping of the host, the user
information, the path and the fragment are not modelled. -/
def Parse (rawURL : Bytes) : Option URL :=
  let u := (Cut 35 rawURL).1
  if u.any (fun b => decide (b < 32) || b == 127) then none
  else match getScheme u [] u with
    | none => none
    | some (scheme, rest) =>
      let rq : Bytes × Bytes :=
        if rest.getLast? = some 63 ∧ rest.count 63 = 1 then (rest.dropLast, [])
        else ((Cut 63 rest).1, (Cut 63 rest).2.1)
      let rest := rq.1
      let rawQuery := rq.2
      if !HasPrefix rest [47] ∧ scheme ≠ [] then
        some ⟨scheme, rest, [], [], rawQuery⟩
      else if !HasPrefix rest [47] ∧ ((Cut 47 rest).1).contains 58 then none
      else if HasPrefix rest [47, 47] then
        let authority := (Cut 47 (rest.drop 2)).1
        some ⟨scheme, [], hostOf authority, (rest.drop 2).drop authority.length, rawQuery⟩
      else some ⟨scheme, [], [], rest, rawQuery⟩

/-- Go `url.QueryUnescape`: `%XX` is a byte, `+` is a space; `none` on a bad escape. -/
def QueryUnescape : Bytes → Option Bytes
  | [] => some []
  | c :: rest =>
    if c = 37 then
      match rest with
      | a :: b :: more =>
        match hex.fromHexChar a, hex.fromHexChar b, QueryUnescape more with
        | some x, some y, some out => some ((x * 16 + y) :: out)
        | _, _, _ => none
      | _ => none
    else match QueryUnescape rest with
      | some out => some ((if c = 43 then 32 else c) :: out)
      | none => none

/-- The pairs `parseQuery` collects, in order; the pairs it skips (a
semicolon, an empty key, a bad escape) are left out. -/
def parseQuery (query : Bytes) : List (Bytes × Bytes) :=
  (Split 38 query).filterMap fun kv =>
    if kv.contains 59 ∨ kv = [] then none
    else match QueryUnescape (Cut 61 kv).1, QueryUnescape (Cut 61 kv).2.1 with
      | some k, some v => some (k, v)
      | _, _ => none

/-- Go `u.Query().Get(key)`. -/
def URL.QueryGet (u : URL) (key : Bytes) : Bytes :=
  ((parseQuery u.RawQuery).lookup key).getD []

end url

/-! ## client.go -/

/-- Go `DecodeConfig`: the error, or `(ipAddresses, port, password, generation)`. -/
def DecodeConfig (connectionURL : Bytes) :
    Except String (List Bytes × Nat × Bytes × Bytes) :=
  match url.Parse connectionURL with
  | none => .error "failed to parse connection URL"
  | some curl =>
    if curl.Host ≠ ascii "companion.clip-studio.com" then
      .error "connection URL has incorrect host"
    else
      let sParam := curl.QueryGet (ascii "s")
      if sParam = [] then .error "connection URL has no required 's' parameter"
      else match hex.DecodeString sParam with
        | none => .error "failed to decode 's' parameter hex"
        | some sBytes =>
          match Split 9 (crypto.ObfuscateRemoteParam sBytes) with
          | [f0, f1, f2, f3] =>
            let ipAddresses := Split 44 f0
            match strconv.ParseInt f1 16 with
            | .error e => .error ("failed parsing port: " ++ e)
            | .ok rawPort => .ok (ipAddresses, (rawPort % 65536).toNat, f2, f3)
          | _ => .error "connection params has incorrect number of items"

open packets

/-- One call of a completion made by the session code. -/
structure Call (J : Type) where
  callback : ClientCommandCallback
  scp : Option (ServerCommand J)
  err : Error
deriving DecidableEq

/-- One arrival at a completion supplied by an embedder (`sink id`). -/
structure Delivery (J : Type) where
  id : Nat
  scp : Option (ServerCommand J)
  err : Error
deriving DecidableEq

/-- The type `Client`. `callbacks` is the content of the concurrent map, as a
list of entries. `timeout` counts how often the idle timer was re-armed and
`keepalives` how often `go c.keepalive()` was started. The last three fields
are ghost records. `calls` and `delivered` hold every completion the session
code called and every arrival at an embedder's completion, oldest first.
`halted` is set once the goroutine can go no further: it waits for a shard
lock it holds itself, it has panicked, or its calls are nested deeper than
the stack holds. -/
structure Client (J : Type) where
  atomicSerial : Nat
  conn : Conn
  callbacks : List (Nat × ClientCommandCallback)
  password : Bytes
  generation : Bytes
  timeout : Nat
  alive : Bool
  keepalives : Nat
  calls : List (Call J)
  delivered : List (Delivery J)
  halted : Option String
deriving DecidableEq

namespace cmap

/-- The hash `fnv32` of the map library, on the bytes of a key. -/
def fnv32 (key : Bytes) : Nat :=
  key.foldl (fun hash b => (hash * 16777619 % 2 ^ 32) ^^^ b) 2166136261

/-- The shard of a serial: the map is built by `cmap.NewStringer`, which hashes
`Serial.String()`, the decimal text, into one of 32 shards. -/
def shardOf (key : Nat) : Nat := fnv32 (strconv.FormatUint key) % 32

/-- The entries of one shard. The order in which Go ranges over the items of a
shard is not specified; the list order stands for it. -/
def shardItems (m : List (Nat × ClientCommandCallback)) (idx : Nat) :
    List (Nat × ClientCommandCallback) :=
  m.filter (fun e => shardOf e.1 == idx)

/-- Go `ConcurrentMap.Pop`: the map without `key`, and the value it held. -/
def Pop (m : List (Nat × ClientCommandCallback)) (key : Nat) :
    List (Nat × ClientCommandCallback) × Option ClientCommandCallback :=
  (m.filter (fun e => e.1 != key), m.lookup key)

/-- Go `ConcurrentMap.Set`. -/
def Set (m : List (Nat × ClientCommandCallback)) (key : Nat) (v : ClientCommandCallback) :
    List (Nat × ClientCommandCallback) :=
  m.filter (fun e => e.1 != key) ++ [(key, v)]

end cmap

/-- What runs a callback: given the shards whose read lock the goroutine holds
(it is inside `IterCb` on them), the callback, the session and the arguments
of the call, the session after the call. -/
abbrev Runner (J : Type) :=
  List Nat → ClientCommandCallback → Client J → Option (ServerCommand J) → Error → Client J

namespace Client

variable {J : Type}

/-- Sequencing: the next statement runs unless the goroutine has halted. -/
def andThen (c : Client J) (next : Client J → Client J) : Client J :=
  match c.halted with
  | some _ => c
  | none => next c

/-- A call `callback(scp, err)` made by the session code. -/
def callWith (r : Runner J) (held : List Nat) (c : Client J) (callback : ClientCommandCallback)
    (scp : Option (ServerCommand J)) (err : Error) : Client J :=
  r held callback { c with calls := c.calls ++ [⟨callback, scp, err⟩] } scp err

/-- The iteration `callbacks.IterCb`, whose function calls
`v(nil, errors.New(reason))`: shard after shard in index order, each under its
read lock, over the items the shard holds when it is reached. -/
def cancelAllWith (r : Runner J) (held : List Nat) (c : Client J) (reason : String) : Client J :=
  (List.range 32).foldl (fun c idx =>
    c.andThen fun c =>
      (cmap.shardItems c.callbacks idx).foldl (fun c e =>
        c.andThen fun c => c.callWith r (idx :: held) e.2 none (some reason)) c) c

/-- Go `callbacks.Set(key, v)`, which takes the write lock of the shard of `key`:
the goroutine waits for ever when it holds the read lock of that shard. -/
def setWith (held : List Nat) (c : Client J) (key : Nat) (v : ClientCommandCallback) : Client J :=
  if cmap.shardOf key ∈ held then { c with halted := some "deadlock" }
  else { c with callbacks := cmap.Set c.callbacks key v }

/-- Go `callbacks.Clear()`, which removes every key under the write lock of its
shard: the goroutine waits for ever when it holds the read lock of the shard of
a key. What has been removed by then is not specified; the map is left as it is. -/
def clearWith (held : List Nat) (c : Client J) : Client J :=
  if c.callbacks.any (fun e => decide (cmap.shardOf e.1 ∈ held)) then
    { c with halted := some "deadlock" }
  else { c with callbacks := [] }

/-- Go `(*Client).Reset`. -/
def ResetWith (r : Runner J) (held : List Nat) (c : Client J) : Client J :=
  let c := if c.alive then { c with alive := false } else c
  (c.cancelAllWith r held "client-side reset").andThen fun c =>
    (c.clearWith held).andThen fun c => { c with atomicSerial := 0 }

/-- Go `(*Client).Close`. -/
def CloseWith (r : Runner J) (held : List Nat) (c : Client J) : Client J × Error :=
  match (c.ResetWith r held).halted with
  | some _ => (c.ResetWith r held, none)
  | none =>
    ({ c.ResetWith r held with conn := (c.ResetWith r held).conn.Close.1 },
      (c.ResetWith r held).conn.Close.2)

/-- Go `(*Client).SendCommand`; `none` when building the packet panics. -/
def SendCommandWith (r : Runner J) (json : JSON J) (held : List Nat) (c : Client J)
    (command : Bytes) (detail : Option J) (callback : ClientCommandCallback) :
    Option (Client J) :=
  if !c.alive && command != commands.Authenticate then
    some (c.callWith r held callback none (some "client is not alive"))
  else
    let cmd : ClientCommand J := ⟨command, c.atomicSerial, detail, callback⟩
    let c := { c with atomicSerial := (c.atomicSerial + 1) % 2 ^ 32 }
    match cmd.Write json c.conn with
    | none => none
    | some (conn, err) =>
      let c := { c with conn := conn }
      let c :=
        match err with
        | some e => c.callWith r held cmd.Callback none (some ("failed writing command: " ++ e))
        | none => c
      some (c.andThen fun c =>
        ({ c with timeout := c.timeout + 1 }).setWith held cmd.Serial cmd.Callback)

/-- Go `(*Client).Reauthenticate`. -/
def ReauthenticateWith (r : Runner J) (json : JSON J) (held : List Nat) (c : Client J)
    (callback : ClientCommandCallback) : Option (Client J) :=
  let currPass := crypto.ObfuscateAuthParam c.password
  let reconnector := crypto.ObfuscateAuthParam protocol.ReconnectionRequest
  SendCommandWith r json held c commands.Authenticate
    (some (json.ofStrings
      [c.generation, hex.EncodeToString reconnector, hex.EncodeToString currPass]))
    (.reauthenticate callback)

/-- The goroutine stops on a panic. -/
def orPanic (c : Client J) (result : Option (Client J)) : Client J :=
  match result with
  | some c1 => c1
  | none => { c with halted := some "panic" }

end Client

/-- What running a callback does to the session, following calls nested at most
`depth` deep; a call nested deeper halts the goroutine. Each case is the body
of the closure of that name in `client.go`. A closure that reads `scp.Type`
panics when it is called with a nil packet and a nil error. -/
def packets.ClientCommandCallback.runDepth {J : Type} (json : JSON J) : Nat → Runner J
  | 0 => fun _ _ c _ _ => { c with halted := some "call depth" }
  | depth + 1 => fun held callback c scp err =>
    match callback with
    | .sink id => { c with delivered := c.delivered ++ [⟨id, scp, err⟩] }
    | .authenticate callback newPassword =>
      match err, scp with
      | some e, _ => runDepth json depth held callback c scp (some e)
      | none, none => { c with halted := some "panic" }
      | none, some s =>
        if s.Typ = TypeServerResponseError then
          (runDepth json depth held callback c scp (some "authentication failed")).andThen
            fun c => { c with atomicSerial := 0 }
        else { c with password := newPassword, keepalives := c.keepalives + 1 }
    | .reauthenticate callback =>
      match err, scp with
      | some e, _ => runDepth json depth held callback c scp (some e)
      | none, none => { c with halted := some "panic" }
      | none, some s =>
        if s.Typ = TypeServerResponseError then
          (runDepth json depth held callback c scp (some "reauthentication failed")).andThen
            fun c => { c with atomicSerial := 0 }
        else { c with keepalives := c.keepalives + 1 }
    | .heartbeat callback =>
      match err, scp with
      | some e, _ => runDepth json depth held callback c scp (some e)
      | none, none => { c with halted := some "panic" }
      | none, some s =>
        if s.Typ = TypeServerResponseError then
          runDepth json depth held callback c scp (some "heartbeat failed")
        else runDepth json depth held callback { c with timeout := c.timeout + 1 } scp none
    | .reconnected =>
      match err with
      | some _ => (c.CloseWith (runDepth json depth) held).1
      | none => c
    | .keepaliveReauth =>
      match err with
      | some _ => (c.CloseWith (runDepth json depth) held).1
      | none => { c with timeout := c.timeout + 1 }
    | .keepaliveHeartbeat =>
      match err with
      | some _ =>
        c.orPanic (Client.ReauthenticateWith (runDepth json depth) json held
          { c with alive := false } .keepaliveReauth)
      | none => c

/-- How deep the development follows nested calls: an order of magnitude for
what the stack of a goroutine holds. -/
def callDepth : Nat := 1000000

/-- What running a callback does to the session, called from the top of a
goroutine, which holds no lock. -/
def packets.ClientCommandCallback.run {J : Type} (json : JSON J) : Runner J :=
  packets.ClientCommandCallback.runDepth json callDepth

namespace Client

variable {J : Type}

/-- A call `callback(scp, err)` made by the session code. -/
def call (json : JSON J) (c : Client J) (callback : ClientCommandCallback)
    (scp : Option (ServerCommand J)) (err : Error) : Client J :=
  c.callWith (ClientCommandCallback.run json) [] callback scp err

/-- The iteration `callbacks.IterCb`, whose function calls `v(nil, errors.New(reason))`. -/
def cancelAll (json : JSON J) (c : Client J) (reason : String) : Client J :=
  c.cancelAllWith (ClientCommandCallback.run json) [] reason

/-- Go `(*Client).Reset`. -/
def Reset (json : JSON J) (c : Client J) : Client J :=
  c.ResetWith (ClientCommandCallback.run json) []

/-- Go `(*Client).Close`. -/
def Close (json : JSON J) (c : Client J) : Client J × Error :=
  c.CloseWith (ClientCommandCallback.run json) []

/-- Go `(*Client).callbackForSerial`. The two statements after the reset block,
`c.atomicSerial.Store(uint32(scp.Serial) + 1)` and the re-arming of the timer,
are written once for either way through the block. -/
def callbackForSerialWith (r : Runner J) (c : Client J) (serial : Nat)
    (scp : Option (ServerCommand J)) (err : Error) : Client J :=
  match cmap.Pop c.callbacks serial with
  | (m, some callback) => ({ c with callbacks := m }).callWith r [] callback scp err
  | (_, none) =>
    match scp with
    | none => c
    | some s =>
      if s.Typ = TypeClientCommand then
        let resync : Client J → Client J := fun c =>
          { c with atomicSerial := (s.Serial + 1) % 2 ^ 32, timeout := c.timeout + 1 }
        if s.Serial = 0 then
          ((c.cancelAllWith r [] "server-side reset").andThen fun c => c.clearWith []).andThen
            resync
        else resync c
      else c

/-- Go `(*Client).callbackForSerial`, on the reader goroutine. -/
def callbackForSerial (json : JSON J) (c : Client J) (serial : Nat)
    (scp : Option (ServerCommand J)) (err : Error) : Client J :=
  c.callbackForSerialWith (ClientCommandCallback.run json) serial scp err

/-- Go `(*Client).SendCommand`; `none` when building the packet panics. -/
def SendCommand (json : JSON J) (c : Client J) (command : Bytes) (detail : Option J)
    (callback : ClientCommandCallback) : Option (Client J) :=
  SendCommandWith (ClientCommandCallback.run json) json [] c command detail callback

/-- Go `(*Client).Authenticate`; `newPassword` is what `crypto.MakePassword()` returns. -/
def Authenticate (json : JSON J) (c : Client J) (callback : ClientCommandCallback)
    (password newPassword : Bytes) : Option (Client J) :=
  let currPass := crypto.ObfuscateAuthParam password
  let newPass := crypto.ObfuscateAuthParam newPassword
  SendCommand json c commands.Authenticate
    (some (json.ofStrings [c.generation, hex.EncodeToString currPass, hex.EncodeToString newPass]))
    (.authenticate callback newPassword)

/-- Go `(*Client).Reauthenticate`. -/
def Reauthenticate (json : JSON J) (c : Client J) (callback : ClientCommandCallback) :
    Option (Client J) :=
  ReauthenticateWith (ClientCommandCallback.run json) json [] c callback

/-- Go `(*Client).Heartbeat`; the detail is `IdleTimerResetRequested: true`
whatever the argument is. -/
def Heartbeat (json : JSON J) (c : Client J) (callback : ClientCommandCallback) :
    Option (Client J) :=
  SendCommand json c commands.TellHeartbeat
    (some (json.ofFlags [(ascii "IdleTimerResetRequested", true)])) (.heartbeat callback)

/-- How `(*Client).loop` returns. -/
inductive LoopExit where
  /-- On `EOF` the loop calls `c.reconnect()` (the dial is outside the model). -/
  | reconnect
  /-- Another read error, after `c.Close()`. -/
  | readError (e : String)
  /-- A packet that does not parse, after `c.Close()`. -/
  | parseError (e : String)
deriving DecidableEq

/-- Go `(*Client).loop`, for at most `fuel` rounds: the session, and how the loop
returned (`none` when it has not returned). Every round builds a new
`bufio.Reader` on the connection and drops it after one `ReadBytes`. -/
def loop (json : JSON J) : Nat → Client J → Client J × Option LoopExit
  | 0, c => (c, none)
  | fuel + 1, c =>
    match (bufio.NewReader c.conn).ReadBytes protocol.CommandTerminator with
    | (r, data, err) =>
      let c := { c with conn := r.rd }
      if err = some "EOF" then (c, some .reconnect)
      else match err with
        | some e =>
          match (c.Close json).1.halted with
          | some _ => ((c.Close json).1, none)
          | none => ((c.Close json).1, some (.readError e))
        | none =>
          match ServerCommand.Parse json ⟨0, [], 0, none, none⟩ data with
          | .error e =>
            match (c.Close json).1.halted with
            | some _ => ((c.Close json).1, none)
            | none => ((c.Close json).1, some (.parseError e))
          | .ok pkt =>
            match (c.callbackForSerial json pkt.Serial (some pkt) none).halted with
            | some _ => (c.callbackForSerial json pkt.Serial (some pkt) none, none)
            | none => loop json fuel (c.callbackForSerial json pkt.Serial (some pkt) none)

end Client

/-! ## Concurrent senders

`SendCommand` touches the counter twice, by `c.atomicSerial.Load()` and later
by `c.atomicSerial.Add(1)`. Each is one atomic action; a goroutine running
`SendCommand` is a `Sender` that performs them in this order, and a schedule
says which goroutine acts next. -/

/-- Where a goroutine stands in `SendCommand`. -/
inductive Sender where
  /-- Before `c.atomicSerial.Load()`. -/
  | start
  /-- After the load, with the serial put into `cmd`; before `c.atomicSerial.Add(1)`. -/
  | loaded (serial : Nat)
  /-- After the add; the command goes out with this serial. -/
  | emitted (serial : Nat)
deriving DecidableEq

/-- The next atomic action of a sender on the counter. -/
def Sender.step (counter : Nat) : Sender → Nat × Sender
  | .start => (counter, .loaded counter)
  | .loaded serial => ((counter + 1) % 2 ^ 32, .emitted serial)
  | .emitted serial => (counter, .emitted serial)

/-- Run a schedule: the i-th entry names the sender that acts at step i. -/
def runSchedule : List Nat → Nat × List Sender → Nat × List Sender
  | [], st => st
  | i :: rest, (counter, senders) =>
    match senders.get? i with
    | none => runSchedule rest (counter, senders)
    | some s => runSchedule rest ((s.step counter).1, senders.set i (s.step counter).2)

/-- A writer in good standing on top of the connection `w`: no sticky error,
the buffer within its size, and socket and buffer together hold `data` after
what `w` had received. -/
def bufio.Writer.Holds (b : bufio.Writer) (w : Conn) (data : Bytes) : Prop :=
  b.err = none ∧ b.buf.length ≤ b.size ∧
    ∃ pre, b.wr = { w with written := w.written ++ pre } ∧ pre ++ b.buf = data

/-! ## Fixtures

Concrete values on which the statements below are run. -/

/-- A JSON library in which a detail value is its own JSON text: marshalling
returns the text, unmarshalling keeps it (`null` gives the nil interface), and
a list of strings is the array of its quoted members. -/
def textJSON : JSON Bytes where
  Marshal := fun d => d
  Unmarshal := fun b => if b = ascii "null" then some none else some (some b)
  ofStrings := fun l => [91] ++ ([44] : Bytes).intercalate (l.map fun x => [34] ++ x ++ [34]) ++ [93]
  ofFlags := fun l => [123] ++ ([44] : Bytes).intercalate
    (l.map fun x => [34] ++ x.1 ++ [34, 58] ++ (if x.2 then ascii "true" else ascii "false")) ++ [125]

/-- A connection on which nothing was written and nothing is left to read. -/
def idleConn : Conn := ⟨[], none, [], false⟩

/-- A connection whose socket refuses every write. -/
def brokenConn : Conn := ⟨[], some "broken pipe", [], false⟩

/-- The session `Connect` builds on a connection, after its `client.Reset()`. -/
def freshClient (conn : Conn) (generation : Bytes) : Client Bytes :=
  ⟨0, conn, [], [], generation, 0, false, 0, [], [], none⟩

/-- A server packet of the given type, command and serial with an empty detail. -/
def serverPacket (typ : Nat) (command : Bytes) (serial : Nat) : Bytes :=
  [typ] ++ ascii "$tcp_remote_command_protocol_version=1.0" ++ protocol.CommandParamSeparator ++
    ascii "command=" ++ command ++ protocol.CommandParamSeparator ++
    ascii "serial=" ++ strconv.FormatUint serial ++ protocol.CommandParamSeparator ++
    ascii "detail=" ++ [0x1e, protocol.CommandTerminator]

/-- The text a pairing URL carries for scenario S1. -/
def pairingText : Bytes := ascii "10.0.0.5,10.0.0.6\t54321\tP@ssw0rd\tG#1:2022.12"

/-- The pairing URL of a parameter text: the fixed address followed by the hex
digits of the obfuscated text. -/
def pairingURL (text : Bytes) : Bytes :=
  ascii "https://companion.clip-studio.com/rc/en-us?s=" ++
    hex.EncodeToString (crypto.ObfuscateRemoteParam text)

/-- The same text with a port below `2 ^ 15`. -/
def pairingTextLowPort : Bytes := ascii "10.0.0.5,10.0.0.6\t5432\tP@ssw0rd\tG#1:2022.12"

/-- The zero value of `ServerCommand` (`var pkt packets.ServerCommand`). -/
def zeroPacket : ServerCommand Bytes := ⟨0, [], 0, none, none⟩

/-- An alive session with two commands in flight, serials 0 and 1, whose
connection will deliver both answers in one `Read`. -/
def twoAnswersSession : Client Bytes :=
  ⟨2, ⟨[], none, [.ok (serverPacket 0x06 commands.TellHeartbeat 0 ++
      serverPacket 0x06 commands.TellHeartbeat 1)], false⟩,
    [(0, .sink 0), (1, .sink 1)], [], [], 0, true, 0, [], [], none⟩

/-- A session just connected, whose server will answer the first command
with a success packet. -/
def authSession : Client Bytes :=
  freshClient ⟨[], none, [.ok (serverPacket 0x06 commands.Authenticate 0)], false⟩ (ascii "G#1:2022.12")

/-- An alive session with nothing in flight whose socket refuses every write. -/
def brokenSession : Client Bytes := ⟨0, brokenConn, [], [], [], 0, true, 0, [], [], none⟩

/-- An alive session with nothing in flight whose counter stands at 10. -/
def busySession : Client Bytes := ⟨10, idleConn, [], [], [], 0, true, 0, [], [], none⟩

/-- A heartbeat command with the empty array as detail. -/
def emptyArrayCommand : ClientCommand Bytes := ⟨commands.TellHeartbeat, 7, some (ascii "[]"), .sink 0⟩

/-- The session `brokenSession` is in after `SendCommand` was given a command
too long for the write buffer. -/
def afterFailedSend : Client Bytes :=
  ⟨1, brokenConn, [(0, .sink 0)], [], [], 1, true, 0,
    [⟨.sink 0, none, some "failed writing command: failed writing command packet body: broken pipe"⟩],
    [⟨0, none, some "failed writing command: failed writing command packet body: broken pipe"⟩],
    none⟩

/-- Go `strings.Join(elems, sep)` for a one-byte `sep`. -/
def Join (sep : Nat) : List Bytes → Bytes
  | [] => []
  | [a] => a
  | a :: b :: rest => a ++ sep :: Join sep (b :: rest)

/-- The parameter text of a pairing: the endpoints joined by commas, the port in
decimal, the password and the generation, separated by tabs. -/
def pairingFields (endpoints : List Bytes) (port : Nat) (password generation : Bytes) : Bytes :=
  Join 44 endpoints ++ 9 :: (strconv.FormatUint port ++ 9 :: (password ++ 9 :: generation))

/-- A success packet for serial 0 of the preview command whose detail fragment,
after the literal `detail=`, is `detail`. -/
def previewPacket (detail : Bytes) : Bytes :=
  [0x06] ++ ascii "$tcp_remote_command_protocol_version=1.0" ++ protocol.CommandParamSeparator ++
    ascii "command=PreviewWebtoonFromClient" ++ protocol.CommandParamSeparator ++
    ascii "serial=0" ++ protocol.CommandParamSeparator ++
    ascii "detail=" ++ detail ++ [0x1e, protocol.CommandTerminator]

/-- A four-field parameter text whose second field is `port`. -/
def portText (port : Bytes) : Bytes :=
  ascii "10.0.0.5\t" ++ port ++ ascii "\tP@ssw0rd\tG#1:2022.12"

/-- The session `reconnect` leaves behind on its new connection: the registry
emptied by `Reset` and the re-authentication sent, under serial 0, with the
closure of `reconnect` as its callback. -/
def reconnectedSession : Client Bytes :=
  (Client.Reauthenticate textJSON (freshClient idleConn (ascii "G#1:2022.12")) .reconnected).getD
    (freshClient idleConn [])

/-- An authenticated session whose keepalive has a heartbeat in flight under
serial 1, and whose server answers that heartbeat with an error packet. -/
def heartbeatSession : Client Bytes :=
  ⟨2, ⟨[], none, [.ok (serverPacket 0x15 commands.TellHeartbeat 1)], false⟩,
    [(1, .heartbeat .keepaliveHeartbeat)], ascii "AAAAAAAA", ascii "G#1:2022.12", 1, true, 1,
    [], [], none⟩

/-! ## The obfuscation codec -/

namespace crypto

theorem xorFrom_length (key : Bytes) (i : Nat) (x : Bytes) :
    (xorFrom key i x).length = x.length := by
  induction x generalizing i with
  | nil => rfl
  | cons b rest ih => simp [xorFrom, ih]

theorem xorFrom_xorFrom (key : Bytes) (i : Nat) (x : Bytes) :
    xorFrom key i (xorFrom key i x) = x := by
  induction x generalizing i with
  | nil => rfl
  | cons b rest ih => simp [xorFrom, ih, Nat.xor_assoc]

theorem xorFrom_getElem? (key : Bytes) (i j : Nat) (x : Bytes) :
    (xorFrom key i x)[j]? = (x[j]?).map fun b => b ^^^ key.getD ((i + j) % 7) 0 := by
  induction x generalizing i j with
  | nil => simp [xorFrom]
  | cons b rest ih =>
    cases j with
    | zero => simp [xorFrom]
    | succ j =>
      simp only [xorFrom, List.getElem?_cons_succ, ih]
      have : i + 1 + j = i + (j + 1) := by omega
      rw [this]

/-- C3. Both obfuscators are involutions on every byte sequence, the empty one
included; each keeps the length and XORs the byte at index `i` with
`key[i mod 7]`. -/
theorem obfuscate_involution (x : Bytes) :
    ObfuscateRemoteParam (ObfuscateRemoteParam x) = x ∧
    ObfuscateAuthParam (ObfuscateAuthParam x) = x ∧
    (ObfuscateRemoteParam x).length = x.length ∧
    (ObfuscateAuthParam x).length = x.length ∧
    (∀ i, (ObfuscateRemoteParam x)[i]? = (x[i]?).map fun b => b ^^^ remoteParamKey.getD (i % 7) 0) ∧
    (∀ i, (ObfuscateAuthParam x)[i]? = (x[i]?).map fun b => b ^^^ authKey.getD (i % 7) 0) := by
  refine ⟨xorFrom_xorFrom _ _ _, xorFrom_xorFrom _ _ _, xorFrom_length _ _ _,
    xorFrom_length _ _ _, ?_, ?_⟩
  · intro i
    simpa using xorFrom_getElem? remoteParamKey 0 i x
  · intro i
    simpa using xorFrom_getElem? authKey 0 i x

end crypto

/-! ## Decimal numbers, prefixes and splitting -/

namespace strconv

theorem formatBits_digits (fuel n : Nat) (acc : Bytes) (b : Nat)
    (hb : b ∈ formatBits fuel n acc) : (48 ≤ b ∧ b ≤ 57) ∨ b ∈ acc := by
  induction fuel generalizing n acc with
  | zero => exact Or.inr hb
  | succ fuel ih =>
    unfold formatBits at hb
    split at hb
    · rcases List.mem_cons.1 hb with h | h
      · left; omega
      · exact Or.inr h
    · rcases ih _ _ hb with h | h
      · exact Or.inl h
      · rcases List.mem_cons.1 h with h | h
        · left; omega
        · exact Or.inr h

theorem FormatUint_digits (n b : Nat) (hb : b ∈ FormatUint n) : 48 ≤ b ∧ b ≤ 57 := by
  rcases formatBits_digits _ _ _ _ hb with h | h
  · exact h
  · cases h

theorem formatBits_ne_nil (fuel n : Nat) (acc : Bytes) (h : 0 < fuel) :
    formatBits fuel n acc ≠ [] := by
  induction fuel generalizing n acc with
  | zero => omega
  | succ fuel ih =>
    unfold formatBits
    split
    · simp
    · cases fuel with
      | zero => simp [formatBits]
      | succ k => exact ih _ _ (by omega)

theorem parseDigits_formatBits (bitSize fuel n : Nat) (acc : Bytes)
    (hfuel : n < fuel) (hn : n < 2 ^ bitSize) :
    parseDigits bitSize (formatBits fuel n acc) 0 = parseDigits bitSize acc n := by
  induction fuel generalizing n acc with
  | zero => omega
  | succ fuel ih =>
    unfold formatBits
    split
    · rename_i h10
      have h1 : 48 ≤ 48 + n ∧ 48 + n ≤ 57 := by omega
      simp [parseDigits, h1, hn]
    · rename_i h10
      have hdiv : n / 10 < n := Nat.div_lt_self (by omega) (by omega)
      rw [ih (n / 10) _ (by omega) (lt_of_le_of_lt (Nat.div_le_self _ _) hn)]
      have h1 : 48 ≤ 48 + n % 10 ∧ 48 + n % 10 ≤ 57 := by omega
      have h2 : n / 10 * 10 + (48 + n % 10 - 48) = n := by omega
      simp only [parseDigits, h1, h2, hn, and_self, if_true]

theorem ParseUint_FormatUint (bitSize n : Nat) (hn : n < 2 ^ bitSize) :
    ParseUint (FormatUint n) bitSize = .ok n := by
  have hne : FormatUint n ≠ [] := formatBits_ne_nil _ _ _ (by omega)
  simp only [ParseUint, hne, if_false]
  unfold FormatUint
  rw [parseDigits_formatBits bitSize (n + 1) n [] (by omega) hn]
  rfl

end strconv

theorem HasPrefix_append (p s : Bytes) : HasPrefix (p ++ s) p = true := by
  induction p with
  | nil => cases s <;> rfl
  | cons a p ih => simp [HasPrefix, ih]

theorem cutAt_append (c : Nat) (sep a r : Bytes) (ha : c ∉ a) :
    cutAt (c :: sep) (a ++ c :: (sep ++ r)) = some (a, r) := by
  induction a with
  | nil =>
    have h := HasPrefix_append (c :: sep) r
    simp only [List.nil_append, List.cons_append] at h ⊢
    simp [cutAt, h]
  | cons x a ih =>
    have hx : x ≠ c := fun h => ha (by simp [h])
    have ha2 : c ∉ a := fun h => ha (by simp [h])
    simp only [List.cons_append, cutAt, HasPrefix]
    simp [hx, ih ha2]

theorem cutAt_none (c : Nat) (sep s : Bytes) (hs : c ∉ s) : cutAt (c :: sep) s = none := by
  induction s with
  | nil => rfl
  | cons x s ih =>
    have hx : x ≠ c := fun h => hs (by simp [h])
    have hs2 : c ∉ s := fun h => hs (by simp [h])
    simp [cutAt, HasPrefix, hx, ih hs2]

theorem SplitN_four (c : Nat) (sep f0 f1 f2 f3 : Bytes)
    (h0 : c ∉ f0) (h1 : c ∉ f1) (h2 : c ∉ f2) :
    SplitN (c :: sep) 4 (f0 ++ c :: (sep ++ (f1 ++ c :: (sep ++ (f2 ++ c :: (sep ++ f3)))))) =
      [f0, f1, f2, f3] := by
  simp [SplitN, cutAt_append, h0, h1, h2]

/-! ## Hex digits and the pairing address -/

namespace hex

theorem fromHexChar_digit (n : Nat) (h : n < 16) : fromHexChar (digit n) = some n := by
  unfold digit fromHexChar
  split
  · rw [if_pos (by omega)]
    congr 1
    omega
  · rw [if_neg (by omega), if_pos (by omega)]
    congr 1
    omega

theorem DecodeString_EncodeToString (x : Bytes) (hx : ∀ b ∈ x, b < 256) :
    DecodeString (EncodeToString x) = some x := by
  induction x with
  | nil => rfl
  | cons b rest ih =>
    have hb : b < 256 := hx b (by simp)
    have hrest : ∀ c ∈ rest, c < 256 := fun c hc => hx c (by simp [hc])
    have h1 : b / 16 < 16 := by omega
    have h2 : b % 16 < 16 := by omega
    have h3 : b / 16 * 16 + b % 16 = b := by omega
    simp [EncodeToString, DecodeString, fromHexChar_digit, h1, h2, ih hrest, h3]

theorem EncodeToString_digits (x : Bytes) (hx : ∀ b ∈ x, b < 256) (c : Nat)
    (hc : c ∈ EncodeToString x) : (48 ≤ c ∧ c ≤ 57) ∨ (97 ≤ c ∧ c ≤ 102) := by
  induction x with
  | nil => cases hc
  | cons b rest ih =>
    have hb : b < 256 := hx b (by simp)
    have hrest : ∀ c ∈ rest, c < 256 := fun c hc => hx c (by simp [hc])
    simp only [EncodeToString, List.mem_cons] at hc
    rcases hc with h | h | h
    · subst h; unfold digit; split <;> omega
    · subst h; unfold digit; split <;> omega
    · exact ih hrest h

theorem EncodeToString_eq_nil (x : Bytes) (h : EncodeToString x = []) : x = [] := by
  cases x with
  | nil => rfl
  | cons b rest => simp [EncodeToString] at h

end hex

namespace crypto

theorem getD_lt (key : Bytes) (n j : Nat) (hn : 0 < n) (hkey : ∀ b ∈ key, b < n) :
    key.getD j 0 < n := by
  rw [List.getD_eq_getElem?_getD]
  cases h : key[j]? with
  | none => simpa using hn
  | some b => exact hkey b (List.getElem?_mem h)

theorem xorFrom_lt (key : Bytes) (hkey : ∀ b ∈ key, b < 256) (i : Nat) (x : Bytes)
    (hx : ∀ b ∈ x, b < 256) : ∀ b ∈ xorFrom key i x, b < 256 := by
  induction x generalizing i with
  | nil => intro b hb; cases hb
  | cons a rest ih =>
    intro b hb
    simp only [xorFrom, List.mem_cons] at hb
    rcases hb with h | h
    · subst h
      exact Nat.xor_lt_two_pow (n := 8) (hx a (by simp)) (getD_lt key 256 _ (by omega) hkey)
    · exact ih (i + 1) (fun c hc => hx c (by simp [hc])) b h

theorem xorFrom_eq_nil (key : Bytes) (i : Nat) (x : Bytes) (h : xorFrom key i x = []) : x = [] := by
  cases x with
  | nil => rfl
  | cons b rest => simp [xorFrom] at h

end crypto

theorem Split_not_mem (sep : Nat) (s : Bytes) (h : sep ∉ s) : Split sep s = [s] := by
  induction s with
  | nil => rfl
  | cons b rest ih =>
    have hb : b ≠ sep := fun e => h (by simp [e])
    have hrest : sep ∉ rest := fun e => h (by simp [e])
    simp [Split, hb, ih hrest]

theorem Split_append (sep : Nat) (a r : Bytes) (h : sep ∉ a) :
    Split sep (a ++ sep :: r) = a :: Split sep r := by
  induction a with
  | nil => simp [Split]
  | cons b rest ih =>
    have hb : b ≠ sep := fun e => h (by simp [e])
    have hrest : sep ∉ rest := fun e => h (by simp [e])
    simp [Split, hb, ih hrest]

namespace url

theorem Cut_not_mem (sep : Nat) (s : Bytes) (h : sep ∉ s) : Cut sep s = (s, [], false) := by
  induction s with
  | nil => rfl
  | cons b rest ih =>
    have hb : b ≠ sep := fun e => h (by simp [e])
    have hrest : sep ∉ rest := fun e => h (by simp [e])
    simp [Cut, hb, ih hrest]

theorem Cut_append (sep : Nat) (a r : Bytes) (h : sep ∉ a) :
    Cut sep (a ++ sep :: r) = (a, r, true) := by
  induction a with
  | nil => simp [Cut]
  | cons b rest ih =>
    have hb : b ≠ sep := fun e => h (by simp [e])
    have hrest : sep ∉ rest := fun e => h (by simp [e])
    simp [Cut, hb, ih hrest]

theorem QueryUnescape_plain (s : Bytes) (h37 : 37 ∉ s) (h43 : 43 ∉ s) :
    QueryUnescape s = some s := by
  induction s with
  | nil => rfl
  | cons b rest ih =>
    have hb1 : b ≠ 37 := fun e => h37 (by simp [e])
    have hb2 : b ≠ 43 := fun e => h43 (by simp [e])
    have hr1 : 37 ∉ rest := fun e => h37 (by simp [e])
    have hr2 : 43 ∉ rest := fun e => h43 (by simp [e])
    unfold QueryUnescape
    simp [hb1, hb2, ih hr1 hr2]

end url

namespace url

theorem getScheme_https (u r : Bytes) :
    getScheme u [] (ascii "https:" ++ r) = some (ascii "https", r) := by
  have h1 : ascii "https:" = [104, 116, 116, 112, 115, 58] := by decide
  have h2 : ascii "https" = [104, 116, 116, 112, 115] := by decide
  rw [h1, h2]
  simp [getScheme]

/-- The pairing address followed by hex digits parses to the host
`companion.clip-studio.com` and the raw query `s=` followed by the digits. -/
theorem Parse_pairing (h : Bytes) (hh : ∀ c ∈ h, (48 ≤ c ∧ c ≤ 57) ∨ (97 ≤ c ∧ c ≤ 102)) :
    Parse (ascii "https://companion.clip-studio.com/rc/en-us?s=" ++ h) =
      some ⟨ascii "https", [], ascii "companion.clip-studio.com", ascii "/rc/en-us",
        ascii "s=" ++ h⟩ := by
  have hP : ascii "https://companion.clip-studio.com/rc/en-us?s=" ++ h =
      ascii "https:" ++ (ascii "//companion.clip-studio.com/rc/en-us" ++ 63 :: (ascii "s=" ++ h)) := by
    have : ascii "https://companion.clip-studio.com/rc/en-us?s=" =
        ascii "https:" ++ (ascii "//companion.clip-studio.com/rc/en-us" ++ 63 :: ascii "s=") := by
      decide
    rw [this]
    simp
  have h35 : 35 ∉ ascii "https://companion.clip-studio.com/rc/en-us?s=" ++ h := by
    have h1 : 35 ∉ ascii "https://companion.clip-studio.com/rc/en-us?s=" := by decide
    intro hc
    rcases List.mem_append.1 hc with hc | hc
    · exact h1 hc
    · have := hh _ hc; omega
  have hctl : (ascii "https://companion.clip-studio.com/rc/en-us?s=" ++ h).any
      (fun b => decide (b < 32) || b == 127) = false := by
    have h1 : (ascii "https://companion.clip-studio.com/rc/en-us?s=").any
        (fun b => decide (b < 32) || b == 127) = false := by decide
    rw [List.any_append, h1, Bool.false_or, List.any_eq_false]
    intro x hx
    have := hh _ hx
    simp
    omega
  have hlast : (ascii "//companion.clip-studio.com/rc/en-us" ++ 63 :: (ascii "s=" ++ h)).getLast? ≠
      some 63 := by
    have h1 : (ascii "//companion.clip-studio.com/rc/en-us" ++ 63 :: (ascii "s=" ++ h)) =
        (ascii "//companion.clip-studio.com/rc/en-us" ++ 63 :: ascii "s=") ++ h := by simp
    have h2 : (ascii "//companion.clip-studio.com/rc/en-us" ++ 63 :: ascii "s=").getLast? = some 61 := by
      decide
    rw [h1, List.getLast?_append, h2]
    cases hl : h.getLast? with
    | none => simp
    | some c =>
      have := hh c (List.mem_of_getLast?_eq_some hl)
      simp
      omega
  have h63 : 63 ∉ ascii "//companion.clip-studio.com/rc/en-us" := by decide
  have hcut := Cut_append 63 (ascii "//companion.clip-studio.com/rc/en-us") (ascii "s=" ++ h) h63
  have hpre1 : HasPrefix (ascii "//companion.clip-studio.com/rc/en-us") [47] = true := by decide
  have hpre2 : HasPrefix (ascii "//companion.clip-studio.com/rc/en-us") [47, 47] = true := by decide
  have hauth : (Cut 47 ((ascii "//companion.clip-studio.com/rc/en-us").drop 2)).1 =
      ascii "companion.clip-studio.com" := by decide
  have hhost : hostOf (ascii "companion.clip-studio.com") = ascii "companion.clip-studio.com" := by
    decide
  have hpath : ((ascii "//companion.clip-studio.com/rc/en-us").drop 2).drop
      (ascii "companion.clip-studio.com").length = ascii "/rc/en-us" := by decide
  unfold Parse
  simp only [Cut_not_mem 35 _ h35, hctl]
  rw [hP, getScheme_https]
  simp only [hlast, false_and, if_false, hcut, hpre1, hpre2, hauth, hhost, hpath]
  simp

theorem QueryGet_pairing (u : URL) (h : Bytes) (hq : u.RawQuery = ascii "s=" ++ h)
    (hh : ∀ c ∈ h, (48 ≤ c ∧ c ≤ 57) ∨ (97 ≤ c ∧ c ≤ 102)) :
    u.QueryGet (ascii "s") = h := by
  have hmem : ∀ c, c ∈ ascii "s=" ++ h → c = 115 ∨ c = 61 ∨ (48 ≤ c ∧ c ≤ 57) ∨ (97 ≤ c ∧ c ≤ 102) := by
    intro c hc
    have hs : ascii "s=" = [115, 61] := by decide
    rw [hs] at hc
    simp only [List.cons_append, List.nil_append, List.mem_cons] at hc
    rcases hc with hc | hc | hc
    · exact Or.inl hc
    · exact Or.inr (Or.inl hc)
    · exact Or.inr (Or.inr (hh c hc))
  have h38 : 38 ∉ ascii "s=" ++ h := fun hc => by have := hmem _ hc; omega
  have h59 : 59 ∉ ascii "s=" ++ h := fun hc => by have := hmem _ hc; omega
  have hne : ascii "s=" ++ h ≠ [] := by
    have hs : ascii "s=" = [115, 61] := by decide
    simp [hs]
  have hcut : Cut 61 (ascii "s=" ++ h) = (ascii "s", h, true) := by
    have hs : ascii "s=" ++ h = ascii "s" ++ 61 :: h := by
      have : ascii "s=" = ascii "s" ++ [61] := by decide
      rw [this]; simp
    rw [hs]
    exact Cut_append 61 _ _ (by decide)
  have hk : QueryUnescape (ascii "s") = some (ascii "s") := by decide
  have hv : QueryUnescape h = some h :=
    QueryUnescape_plain h (fun hc => by have := hh _ hc; omega) (fun hc => by have := hh _ hc; omega)
  simp [URL.QueryGet, parseQuery, hq, Split_not_mem 38 _ h38, h59, hne, hcut, hk, hv, List.lookup]

end url

/-! ## The pairing-URL decoder -/

/-- What `DecodeConfig` returns on the pairing URL of a text of bytes: the
fields of the text, with the second one read by `ParseInt` at 16 bits. -/
theorem DecodeConfig_pairingURL (text : Bytes) (hne : text ≠ []) (hb : ∀ b ∈ text, b < 256) :
    DecodeConfig (pairingURL text) =
      match Split 9 text with
      | [f0, f1, f2, f3] =>
        match strconv.ParseInt f1 16 with
        | .error e => .error ("failed parsing port: " ++ e)
        | .ok rawPort => .ok (Split 44 f0, (rawPort % 65536).toNat, f2, f3)
      | _ => .error "connection params has incorrect number of items" := by
  have hkey : ∀ b ∈ crypto.remoteParamKey, b < 256 := by decide
  have hobf : ∀ b ∈ crypto.ObfuscateRemoteParam text, b < 256 :=
    crypto.xorFrom_lt _ hkey 0 text hb
  have hdig := hex.EncodeToString_digits _ hobf
  have hparse := url.Parse_pairing _ hdig
  have hget := url.QueryGet_pairing
    ⟨ascii "https", [], ascii "companion.clip-studio.com", ascii "/rc/en-us",
      ascii "s=" ++ hex.EncodeToString (crypto.ObfuscateRemoteParam text)⟩ _ rfl hdig
  have hs : hex.EncodeToString (crypto.ObfuscateRemoteParam text) ≠ [] := fun h =>
    hne (crypto.xorFrom_eq_nil _ _ _ (hex.EncodeToString_eq_nil _ h))
  have hdec := hex.DecodeString_EncodeToString _ hobf
  have hinv : crypto.ObfuscateRemoteParam (crypto.ObfuscateRemoteParam text) = text :=
    crypto.xorFrom_xorFrom _ _ _
  unfold DecodeConfig pairingURL
  simp only [hparse, hget, hs, hdec, hinv, ne_eq, not_true_eq_false, if_false]

theorem Join_not_mem (c sep : Nat) (hc : c ≠ sep) (l : List Bytes) (h : ∀ e ∈ l, c ∉ e) :
    c ∉ Join sep l := by
  induction l with
  | nil => simp [Join]
  | cons a rest ih =>
    cases rest with
    | nil => simpa [Join] using h a (by simp)
    | cons b more =>
      have ha := h a (by simp)
      have hrest := ih (fun e he => h e (by simp [he]))
      simp only [Join, List.mem_append, List.mem_cons, not_or]
      exact ⟨ha, hc, hrest⟩

theorem Split_Join (sep : Nat) (l : List Bytes) (hne : l ≠ []) (h : ∀ e ∈ l, sep ∉ e) :
    Split sep (Join sep l) = l := by
  induction l with
  | nil => exact absurd rfl hne
  | cons a rest ih =>
    cases rest with
    | nil => simpa [Join] using Split_not_mem sep a (h a (by simp))
    | cons b more =>
      have ha := h a (by simp)
      have hrest := ih (by simp) (fun e he => h e (by simp [he]))
      simp only [Join]
      rw [Split_append sep a _ ha, hrest]

theorem strconv.ParseInt_FormatUint (port : Nat) (hport : port < 65536) :
    strconv.ParseInt (strconv.FormatUint port) 16 =
      if port < 32768 then .ok (port : Int) else .error "value out of range" := by
  have hne : strconv.FormatUint port ≠ [] := strconv.formatBits_ne_nil _ _ _ (by omega)
  have hu := strconv.ParseUint_FormatUint 16 port (by simpa using hport)
  cases hf : strconv.FormatUint port with
  | nil => exact absurd hf hne
  | cons c rest =>
    have hc := strconv.FormatUint_digits port c (by simp [hf])
    have h43 : c ≠ 43 := by omega
    have h45 : c ≠ 45 := by omega
    rw [hf] at hu
    simp only [strconv.ParseInt, h43, h45, or_self, if_false, hu]
    by_cases hlt : port < 32768
    · have : ¬ (32768 ≤ port) := by omega
      simp [hlt, this, h45]
    · have : 32768 ≤ port := by omega
      simp [hlt, this, h45]

/-- The decoder on the pairing URL of well-formed fields: endpoints without
comma or tab, a port below 2 ^ 16 written in decimal, a password and a
generation without tab, all of bytes. Below 2 ^ 15 the port and the other
fields come back as given; from 2 ^ 15 on the decoder reports the range error. -/
theorem DecodeConfig_pairingFields (endpoints : List Bytes) (port : Nat)
    (password generation : Bytes) (hne : endpoints ≠ [])
    (hep : ∀ e ∈ endpoints, 44 ∉ e ∧ 9 ∉ e) (hport : port < 65536)
    (hpw : 9 ∉ password) (hgen : 9 ∉ generation)
    (hb : ∀ b ∈ pairingFields endpoints port password generation, b < 256) :
    DecodeConfig (pairingURL (pairingFields endpoints port password generation)) =
      if port < 32768 then .ok (endpoints, port, password, generation)
      else .error "failed parsing port: value out of range" := by
  have htext : pairingFields endpoints port password generation ≠ [] := by
    simp [pairingFields]
  have h1 : 9 ∉ Join 44 endpoints := Join_not_mem 9 44 (by decide) endpoints (fun e he => (hep e he).2)
  have h2 : 9 ∉ strconv.FormatUint port := fun h => by
    have := strconv.FormatUint_digits _ _ h; omega
  have hsplit : Split 9 (pairingFields endpoints port password generation) =
      [Join 44 endpoints, strconv.FormatUint port, password, generation] := by
    unfold pairingFields
    rw [Split_append 9 _ _ h1, Split_append 9 _ _ h2, Split_append 9 _ _ hpw,
      Split_not_mem 9 _ hgen]
  rw [DecodeConfig_pairingURL _ htext hb, hsplit]
  simp only [strconv.ParseInt_FormatUint port hport,
    Split_Join 44 endpoints hne (fun e he => (hep e he).1)]
  by_cases hlt : port < 32768
  · simp only [hlt, if_true]
    congr 3
    omega
  · simp [hlt]

set_option maxRecDepth 100000 in
/-- With a port below `2 ^ 15` the text of scenario S1 decodes to its four
fields. -/
theorem DecodeConfig_low_port :
    DecodeConfig (pairingURL pairingTextLowPort) =
      .ok ([ascii "10.0.0.5", ascii "10.0.0.6"], 5432, ascii "P@ssw0rd", ascii "G#1:2022.12") := by
  decide

set_option maxRecDepth 100000 in
/-- C1, at the input of scenario S1. The pairing URL of the text
`10.0.0.5,10.0.0.6 TAB 54321 TAB P@ssw0rd TAB G#1:2022.12` is not decoded to
(endpoints, 54321, password, generation): `DecodeConfig` returns the range
error of `strconv.ParseInt(frags[1], 10, 16)`, which accepts no value above
32767. -/
theorem DecodeConfig_S1_port_out_of_range :
    pairingText = pairingFields [ascii "10.0.0.5", ascii "10.0.0.6"] 54321 (ascii "P@ssw0rd")
      (ascii "G#1:2022.12") ∧
    DecodeConfig (pairingURL pairingText) = .error "failed parsing port: value out of range" ∧
    strconv.ParseInt (ascii "54321") 16 = .error "value out of range" ∧
    strconv.ParseUint (ascii "54321") 16 = .ok 54321 := by
  decide

/-- The decoder on the pairing URL of any four tab-free fields of bytes: it
fails exactly when `ParseInt` at 16 bits fails on the second field, and
otherwise returns that signed value reduced modulo 2 ^ 16 as the port. -/
theorem DecodeConfig_fourFields (f0 f1 f2 f3 : Bytes)
    (h0 : 9 ∉ f0) (h1 : 9 ∉ f1) (h2 : 9 ∉ f2) (h3 : 9 ∉ f3)
    (hb : ∀ b ∈ f0 ++ 9 :: (f1 ++ 9 :: (f2 ++ 9 :: f3)), b < 256) :
    DecodeConfig (pairingURL (f0 ++ 9 :: (f1 ++ 9 :: (f2 ++ 9 :: f3)))) =
      match strconv.ParseInt f1 16 with
      | .error e => .error ("failed parsing port: " ++ e)
      | .ok rawPort => .ok (Split 44 f0, (rawPort % 65536).toNat, f2, f3) := by
  rw [DecodeConfig_pairingURL _ (by simp) hb, Split_append 9 _ _ h0, Split_append 9 _ _ h1,
    Split_append 9 _ _ h2, Split_not_mem 9 _ h3]

set_option maxRecDepth 100000 in
/-- C12, at concrete inputs. In a correctly obfuscated and hex-encoded text of
four fields the second fields `-1` and `+80` are not decimal numerals of an
unsigned 16-bit integer (`ParseUint` refuses both), yet `DecodeConfig` returns
the ports 65535 and 80 for them. The fields `65536`, the empty field and `80a`
are refused. -/
theorem DecodeConfig_signed_port_accepted :
    strconv.ParseUint (ascii "-1") 16 = .error "invalid syntax" ∧
    strconv.ParseUint (ascii "+80") 16 = .error "invalid syntax" ∧
    DecodeConfig (pairingURL (portText (ascii "-1"))) =
      .ok ([ascii "10.0.0.5"], 65535, ascii "P@ssw0rd", ascii "G#1:2022.12") ∧
    DecodeConfig (pairingURL (portText (ascii "+80"))) =
      .ok ([ascii "10.0.0.5"], 80, ascii "P@ssw0rd", ascii "G#1:2022.12") ∧
    DecodeConfig (pairingURL (portText (ascii "65536"))) =
      .error "failed parsing port: value out of range" ∧
    DecodeConfig (pairingURL (portText [])) = .error "failed parsing port: invalid syntax" ∧
    DecodeConfig (pairingURL (portText (ascii "80a"))) =
      .error "failed parsing port: invalid syntax" := by
  refine ⟨by decide, by decide, by decide, by decide, by decide, by decide, by decide⟩

/-! ## Wire framing -/

namespace bufio

theorem Writer.flush_holds (w : Conn) (hc : w.closed = false) (he : w.writeErr = none)
    (b : Writer) (data : Bytes) (h : b.Holds w data) :
    ∃ b1, b.Flush = (b1, none) ∧ b1.Holds w data ∧ b1.buf = [] ∧ b1.size = b.size := by
  obtain ⟨herr, hlen, pre, hwr, hdata⟩ := h
  by_cases hbuf : b.buf.length = 0
  · refine ⟨b, by simp [Writer.Flush, herr, hbuf], ⟨herr, hlen, pre, hwr, hdata⟩, ?_, rfl⟩
    exact List.length_eq_zero.1 hbuf
  · refine ⟨{ b with wr := { w with written := w.written ++ data }, buf := [] }, ?_, ?_, rfl, rfl⟩
    · simp [Writer.Flush, herr, hbuf, Conn.Write, hwr, hc, he, ← hdata]
    · exact ⟨herr, by simp, data, rfl, by simp⟩

theorem Writer.writeByte_holds (w : Conn) (hc : w.closed = false) (he : w.writeErr = none)
    (b : Writer) (data : Bytes) (c : Nat) (h : b.Holds w data) (hsize : 0 < b.size) :
    ∃ b1, b.WriteByte c = (b1, none) ∧ b1.Holds w (data ++ [c]) ∧ b1.size = b.size := by
  by_cases hav : b.Available ≤ 0
  · obtain ⟨b1, hflush, hb1, hbuf, hsz⟩ := Writer.flush_holds w hc he b data h
    obtain ⟨herr1, _, pre, hwr, hdata⟩ := hb1
    refine ⟨{ b1 with buf := b1.buf ++ [c] }, ?_, ?_, hsz⟩
    · simp [Writer.WriteByte, h.1, hav, hflush]
    · refine ⟨herr1, ?_, pre, hwr, ?_⟩
      · simp [hbuf]; omega
      · simp [← hdata, hbuf]
  · obtain ⟨herr, hlen, pre, hwr, hdata⟩ := h
    refine ⟨{ b with buf := b.buf ++ [c] }, ?_, ?_, rfl⟩
    · simp [Writer.WriteByte, herr, hav]
    · refine ⟨herr, ?_, pre, hwr, ?_⟩
      · simp only [Writer.Available] at hav
        simp; omega
      · simp [← hdata]

theorem Writer.writeStringLoop_holds (w : Conn) (hc : w.closed = false) (he : w.writeErr = none)
    (fuel : Nat) (b : Writer) (s data : Bytes) (h : b.Holds w data) (hsize : 0 < b.size)
    (hfuel : s.length + (if b.Available = 0 then 1 else 0) ≤ fuel) :
    ∃ b1 s1 d1, Writer.writeStringLoop fuel b s = (b1, s1) ∧ b1.Holds w d1 ∧
      d1 ++ s1 = data ++ s ∧ s1.length ≤ b1.Available ∧ b1.size = b.size := by
  induction fuel generalizing b s data with
  | zero =>
    have hs : s = [] := List.length_eq_zero.1 (by omega)
    exact ⟨b, s, data, rfl, h, rfl, by simp [hs], rfl⟩
  | succ fuel ih =>
    by_cases hcond : b.Available < s.length ∧ b.err = none
    · have hmin : min b.Available s.length = b.Available := by omega
      have hav : b.Available = b.size - b.buf.length := rfl
      have hb' : ({ b with buf := b.buf ++ s.take b.Available } : Writer).Holds w
          (data ++ s.take b.Available) := by
        obtain ⟨herr, hlen, pre, hwr, hdata⟩ := h
        refine ⟨herr, ?_, pre, hwr, ?_⟩
        · simp only [List.length_append, List.length_take]
          omega
        · simp [← hdata]
      obtain ⟨b1, hflush, hb1, hbuf, hsz⟩ := Writer.flush_holds w hc he _ _ hb'
      have hav1 : b1.Available = b.size := by
        simp only [Writer.Available, hbuf, hsz]
        simp
      have hfuel1 : (s.drop b.Available).length + (if b1.Available = 0 then 1 else 0) ≤ fuel := by
        rw [hav1, if_neg (by omega), List.length_drop]
        split at hfuel <;> omega
      obtain ⟨b2, s2, d2, hloop, hb2, hd2, hlen2, hsz2⟩ :=
        ih b1 (s.drop b.Available) _ hb1 (by simpa [hsz] using hsize) hfuel1
      refine ⟨b2, s2, d2, ?_, hb2, ?_, hlen2, by simpa [hsz] using hsz2⟩
      · rw [Writer.writeStringLoop, if_pos hcond]
        simp only [hmin, hflush, hloop]
      · rw [hd2, List.append_assoc, List.take_append_drop]
    · refine ⟨b, s, data, ?_, h, rfl, ?_, rfl⟩
      · rw [Writer.writeStringLoop, if_neg hcond]
      · have := h.1
        simp only [this, and_true, not_lt] at hcond
        exact hcond

theorem Writer.writeString_holds (w : Conn) (hc : w.closed = false) (he : w.writeErr = none)
    (b : Writer) (s data : Bytes) (h : b.Holds w data) (hsize : 0 < b.size) :
    ∃ b1, b.WriteString s = (b1, none) ∧ b1.Holds w (data ++ s) ∧ b1.size = b.size := by
  obtain ⟨b1, s1, d1, hloop, hb1, hd1, hlen1, hsz⟩ :=
    Writer.writeStringLoop_holds w hc he (s.length + 1) b s data h hsize (by split <;> omega)
  obtain ⟨herr, hlen, pre, hwr, hdata⟩ := hb1
  refine ⟨{ b1 with buf := b1.buf ++ s1 }, ?_, ?_, hsz⟩
  · simp [Writer.WriteString, hloop, herr]
  · refine ⟨herr, ?_, pre, hwr, ?_⟩
    · simp only [Writer.Available] at hlen1
      simp; omega
    · rw [← hd1, ← hdata, List.append_assoc]

end bufio

namespace packets

/-- On a connection that is open and accepts writes, `Write` returns nil and the
socket has received the type byte, the text of `String` and the terminator,
whatever the length of the text. -/
theorem ClientCommand.Write_healthy {J : Type} (json : JSON J) (p : ClientCommand J)
    (w : Conn) (s : Bytes) (hc : w.closed = false) (he : w.writeErr = none)
    (hs : p.String json = some s) :
    p.Write json w =
      some ({ w with written := w.written ++ ([TypeClientCommand] ++ s ++
        [protocol.CommandTerminator]) }, none) := by
  have h0 : (bufio.NewWriterSize w 8192).Holds w [] :=
    ⟨rfl, by simp [bufio.NewWriterSize], [], by simp [bufio.NewWriterSize], rfl⟩
  obtain ⟨b1, hw1, hb1, hsz1⟩ :=
    bufio.Writer.writeByte_holds w hc he _ [] TypeClientCommand h0 (by simp [bufio.NewWriterSize])
  obtain ⟨b2, hw2, hb2, hsz2⟩ :=
    bufio.Writer.writeString_holds w hc he b1 s _ hb1 (by simp [hsz1, bufio.NewWriterSize])
  obtain ⟨b3, hw3, hb3, hsz3⟩ :=
    bufio.Writer.writeByte_holds w hc he b2 _ protocol.CommandTerminator hb2
      (by simp [hsz2, hsz1, bufio.NewWriterSize])
  obtain ⟨b4, hw4, hb4, hbuf4, _⟩ := bufio.Writer.flush_holds w hc he b3 _ hb3
  obtain ⟨_, _, pre, hwr, hdata⟩ := hb4
  simp only [hbuf4, List.append_nil] at hdata
  simp only [ClientCommand.Write, hw1, hs, hw2, hw3, hw4, hwr, hdata, List.nil_append]

end packets

namespace packets

/-- A packet that lays `body` between the type byte with `$` and the two
closing bytes passes the frame checks of `Parse` and is split on `body`. -/
theorem frame_facts (t x : Nat) (body : Bytes) (hlen : 68 ≤ body.length) :
    ¬ (t :: 36 :: (body ++ [x, 0])).length < 72 ∧
    (t :: 36 :: (body ++ [x, 0])).getD 0 0 = t ∧
    (t :: 36 :: (body ++ [x, 0])).getD 1 0 = 36 ∧
    (t :: 36 :: (body ++ [x, 0])).getD ((t :: 36 :: (body ++ [x, 0])).length - 1) 0 = 0 ∧
    ((t :: 36 :: (body ++ [x, 0])).take ((t :: 36 :: (body ++ [x, 0])).length - 2)).drop 2 = body := by
  have hl : (t :: 36 :: (body ++ [x, 0])).length = body.length + 4 := by simp
  refine ⟨by omega, rfl, rfl, ?_, ?_⟩
  · rw [hl]
    have : body.length + 4 - 1 = (body.length + 1) + 1 + 1 := by omega
    rw [this, List.getD_cons_succ, List.getD_cons_succ, List.getD_eq_getElem?_getD,
      List.getElem?_append_right (by omega)]
    simp
  · rw [hl]
    have : body.length + 4 - 2 = body.length + 1 + 1 := by omega
    rw [this, List.take_succ_cons, List.take_succ_cons]
    simp

end packets

namespace packets

/-- The text `String` builds from a command, a serial and a detail text. -/
theorem ClientCommand.String_eq {J : Type} (json : JSON J) (p : ClientCommand J) (dtxt : Bytes)
    (hd : (match p.Detail with
      | none => some []
      | some d => if (json.Marshal d).length = 0 then none else some (json.Marshal d)) = some dtxt) :
    p.String json = some (36 :: (ascii "tcp_remote_command_protocol_version=1.0" ++ 0x1e :: ([36] ++
      ((ascii "command=" ++ p.Command) ++ 0x1e :: ([36] ++
      ((ascii "serial=" ++ strconv.FormatUint p.Serial) ++ 0x1e :: ([36] ++
      (ascii "detail=" ++ dtxt)))))) ++ [0x1e])) := by
  have hA : ascii "$tcp_remote_command_protocol_version=1.0" =
      36 :: ascii "tcp_remote_command_protocol_version=1.0" := by decide
  simp only [ClientCommand.String, hd, hA, protocol.CommandParamSeparator]
  simp

/-- Running `Parse` on the bytes of a client command: type 0x01, the command and the
serial as sent, and the detail text handed to `json.Unmarshal` when it is
longer than two bytes. -/
theorem Parse_client_packet {J : Type} (json : JSON J) (p : ServerCommand J)
    (command : Bytes) (serial : Nat) (dtxt : Bytes)
    (hcommand : 0x1e ∉ command) (hserial : serial < 2 ^ 32) (hd : 0x0b ∉ dtxt) :
    ServerCommand.Parse json p (0x01 :: 36 :: ((ascii "tcp_remote_command_protocol_version=1.0" ++
      0x1e :: ([36] ++ ((ascii "command=" ++ command) ++ 0x1e :: ([36] ++
      ((ascii "serial=" ++ strconv.FormatUint serial) ++ 0x1e :: ([36] ++
      (ascii "detail=" ++ dtxt))))))) ++ [0x1e, 0])) =
    if 2 < dtxt.length then
      match json.Unmarshal dtxt with
      | none => .error "server returned packet with invalid detail JSON"
      | some d => .ok { p with Typ := 0x01, Command := command, Serial := serial, Detail := d }
    else .ok { p with Typ := 0x01, Command := command, Serial := serial } := by
  have hdigits : strconv.FormatUint serial ≠ [] := strconv.formatBits_ne_nil _ _ _ (by omega)
  have hdl : 0 < (strconv.FormatUint serial).length := List.length_pos.2 hdigits
  have hA : (ascii "tcp_remote_command_protocol_version=1.0").length = 39 := by decide
  have hB : (ascii "command=").length = 8 := by decide
  have hC : (ascii "serial=").length = 7 := by decide
  have hD : (ascii "detail=").length = 7 := by decide
  have h0 : 0x1e ∉ ascii "tcp_remote_command_protocol_version=1.0" := by decide
  have h1 : 0x1e ∉ ascii "command=" ++ command := by
    have : 0x1e ∉ ascii "command=" := by decide
    simp [this, hcommand]
  have h2 : 0x1e ∉ ascii "serial=" ++ strconv.FormatUint serial := by
    have : 0x1e ∉ ascii "serial=" := by decide
    intro h
    rcases List.mem_append.1 h with h | h
    · exact this h
    · have := strconv.FormatUint_digits _ _ h
      omega
  obtain ⟨f1, f2, f3, f4, f5⟩ := frame_facts 0x01 0x1e
    (ascii "tcp_remote_command_protocol_version=1.0" ++
      0x1e :: ([36] ++ ((ascii "command=" ++ command) ++ 0x1e :: ([36] ++
      ((ascii "serial=" ++ strconv.FormatUint serial) ++ 0x1e :: ([36] ++
      (ascii "detail=" ++ dtxt))))))) (by simp [hA, hB, hC, hD]; omega)
  have hsplit := SplitN_four 0x1e [36] _ _ _ (ascii "detail=" ++ dtxt) h0 h1 h2
  have hdsplit : SplitN [protocol.DetailSeparator] 2 dtxt = [dtxt] := by
    simp [SplitN, cutAt_none 0x0b [] dtxt hd, protocol.DetailSeparator]
  have hB8 : ∀ l : Bytes, (ascii "command=" ++ l).drop 8 = l := by
    intro l; rw [← hB]; exact List.drop_left _ _
  have hC7 : ∀ l : Bytes, (ascii "serial=" ++ l).drop 7 = l := by
    intro l; rw [← hC]; exact List.drop_left _ _
  have hD7 : ∀ l : Bytes, (ascii "detail=" ++ l).drop 7 = l := by
    intro l; rw [← hD]; exact List.drop_left _ _
  unfold ServerCommand.Parse
  rw [if_neg f1, f2, f3, f4, f5]
  simp only [protocol.CommandParamSeparator, hsplit]
  simp only [HasPrefix_append, hB8, hC7, hD7, strconv.ParseUint_FormatUint 32 serial hserial,
    hdsplit, TypeServerResponseSuccess, TypeServerResponseError, TypeClientCommand,
    protocol.CommandTerminator]
  by_cases h : 2 < dtxt.length
  · simp only [h, if_true]
    cases json.Unmarshal dtxt <;> simp
  · simp [h]

end packets

namespace packets

/-- C2, amended. For every command text without the byte 0x1E, every serial
below 2 ^ 32 and every detail that is absent or whose JSON text, as the JSON
library marshals it, is non-empty, free of 0x0B and accepted by the
unmarshaller, `Write` on a working connection emits bytes on which `Parse`
succeeds with type 0x01, the sent command and the sent serial. When the JSON
text of the detail is longer than two bytes the parsed detail is the value the
unmarshaller reads from that text; it is nil when the detail was absent or its
JSON text has at most two bytes (the empty array and the empty object). -/
theorem Parse_Write_roundtrip {J : Type} (json : JSON J) (command : Bytes) (serial : Nat)
    (detail : Option J) (callback : ClientCommandCallback) (w : Conn)
    (hcommand : 0x1e ∉ command) (hserial : serial < 2 ^ 32)
    (hc : w.closed = false) (he : w.writeErr = none)
    (hdetail : ∀ d, detail = some d → json.Marshal d ≠ [] ∧ 0x0b ∉ json.Marshal d ∧
      json.Unmarshal (json.Marshal d) ≠ none) :
    ∃ pkt,
      ClientCommand.Write json ⟨command, serial, detail, callback⟩ w =
        some ({ w with written := w.written ++ pkt }, none) ∧
      ServerCommand.Parse json ⟨0, [], 0, none, none⟩ pkt =
        .ok ⟨TypeClientCommand, command, serial,
          detail.bind (fun d =>
            if 2 < (json.Marshal d).length then (json.Unmarshal (json.Marshal d)).join else none),
          none⟩ := by
  cases detail with
  | none =>
    have hs := ClientCommand.String_eq json ⟨command, serial, none, callback⟩ [] rfl
    refine ⟨_, ClientCommand.Write_healthy json _ w _ hc he hs, ?_⟩
    have hp := Parse_client_packet json ⟨0, [], 0, none, none⟩ command serial [] hcommand hserial
      (by simp)
    simp only [List.append_nil] at hp
    simpa [TypeClientCommand, protocol.CommandTerminator] using hp
  | some d =>
    obtain ⟨hne, h0b, hacc⟩ := hdetail d rfl
    have hlen : (json.Marshal d).length ≠ 0 := fun h => hne (List.length_eq_zero.1 h)
    have hs := ClientCommand.String_eq json ⟨command, serial, some d, callback⟩ (json.Marshal d)
      (by simp [hlen])
    refine ⟨_, ClientCommand.Write_healthy json _ w _ hc he hs, ?_⟩
    have hp := Parse_client_packet json ⟨0, [], 0, none, none⟩ command serial (json.Marshal d)
      hcommand hserial h0b
    cases hv : json.Unmarshal (json.Marshal d) with
    | none => exact absurd hv hacc
    | some v =>
      rw [hv] at hp
      by_cases h2 : 2 < (json.Marshal d).length
      · simp only [h2, if_true] at hp
        simpa [TypeClientCommand, protocol.CommandTerminator, h2, hv] using hp
      · simp only [h2, if_false] at hp
        simpa [TypeClientCommand, protocol.CommandTerminator, h2, hv] using hp

/-- The amended C2 on a heartbeat command with serial 7 and detail `[1]`. -/
theorem Parse_Write_roundtrip_witness :
    (0x1e ∉ commands.TellHeartbeat ∧ 7 < 2 ^ 32 ∧ idleConn.closed = false ∧
      idleConn.writeErr = none ∧ textJSON.Marshal (ascii "[1]") ≠ [] ∧
      0x0b ∉ textJSON.Marshal (ascii "[1]") ∧
      textJSON.Unmarshal (textJSON.Marshal (ascii "[1]")) ≠ none) ∧
    ∃ pkt,
      ClientCommand.Write textJSON ⟨commands.TellHeartbeat, 7, some (ascii "[1]"), .sink 0⟩ idleConn =
        some ({ idleConn with written := idleConn.written ++ pkt }, none) ∧
      ServerCommand.Parse textJSON ⟨0, [], 0, none, none⟩ pkt =
        .ok ⟨TypeClientCommand, commands.TellHeartbeat, 7,
          (some (ascii "[1]")).bind (fun d =>
            if 2 < (textJSON.Marshal d).length then
              (textJSON.Unmarshal (textJSON.Marshal d)).join else none), none⟩ :=
  ⟨by decide,
   Parse_Write_roundtrip textJSON commands.TellHeartbeat 7 (some (ascii "[1]")) (.sink 0) idleConn
    (by decide) (by decide) rfl rfl (by intro d h; cases h; decide)⟩

set_option maxRecDepth 100000 in
/-- C2 fails on the empty array. The command is sent with the detail `[]`; the
command text has no 0x1E and no NUL, the JSON library reads `[]` back as the
same value, yet `Parse` on the emitted bytes leaves `Detail` nil. -/
theorem Parse_Write_empty_array_detail :
    emptyArrayCommand.Detail = some (ascii "[]") ∧
    0x1e ∉ emptyArrayCommand.Command ∧ 0 ∉ emptyArrayCommand.Command ∧
    textJSON.Unmarshal (textJSON.Marshal (ascii "[]")) = some (some (ascii "[]")) ∧
    (emptyArrayCommand.Write textJSON idleConn).map (fun r => r.2) = some none ∧
    (emptyArrayCommand.Write textJSON idleConn).map
      (fun r => ServerCommand.Parse textJSON zeroPacket r.1.written) =
      some (.ok ⟨TypeClientCommand, commands.TellHeartbeat, 7, none, none⟩) := by
  decide

/-- When the text of `String` does not fit the 8192-byte buffer behind the type
byte and the socket refuses the write, `Write` returns the error of the body. -/
theorem Write_body_error {J : Type} (json : JSON J) (p : ClientCommand J)
    (w : Conn) (s : Bytes) (e : String) (hs : p.String json = some s) (hlen : 8191 < s.length)
    (hc : w.closed = false) (he : w.writeErr = some e) :
    p.Write json w = some (w, some ("failed writing command packet body: " ++ e)) := by
  have hloop : ∀ (n : Nat) (b : bufio.Writer) (t : Bytes), b.err = some e →
      bufio.Writer.writeStringLoop n b t = (b, t) := by
    intro n b t hb
    cases n <;> simp [bufio.Writer.writeStringLoop, hb]
  have hmin : min 8191 s.length = 8191 := by omega
  simp only [ClientCommand.Write, bufio.NewWriterSize, bufio.Writer.WriteByte,
    bufio.Writer.Available, hs, bufio.Writer.WriteString, bufio.Writer.writeStringLoop]
  simp [hlen, hmin, bufio.Writer.Flush, Conn.Write, hc, he, hloop]

end packets

namespace packets

/-- C11, amended. Let `Parse` accept a packet whose detail fragment, after the
literal `detail=`, is `head`, the byte 0x0B and `tail`, with no 0x0B in `head`.
When `head` is longer than two bytes, `Data` is `tail`, the bytes after the
first 0x0B, and `Detail` is the JSON value of `head`. When `head` has at most
two bytes, `Data` and `Detail` are both left as they were in the receiver. -/
theorem Parse_raw_payload {J : Type} (json : JSON J) (p r : ServerCommand J)
    (data f0 f1 f2 f3 head tail : Bytes)
    (hok : ServerCommand.Parse json p data = .ok r)
    (hsplit : SplitN protocol.CommandParamSeparator 4 ((data.take (data.length - 2)).drop 2) =
      [f0, f1, f2, f3])
    (hfrag : f3.drop 7 = head ++ protocol.DetailSeparator :: tail)
    (hhead : protocol.DetailSeparator ∉ head) :
    if 2 < head.length then r.Data = some tail ∧ json.Unmarshal head = some r.Detail
    else r.Data = p.Data ∧ r.Detail = p.Detail := by
  have hd : SplitN [protocol.DetailSeparator] 2 (f3.drop 7) = [head, tail] := by
    rw [hfrag]
    have := cutAt_append protocol.DetailSeparator [] head tail hhead
    simp only [List.nil_append] at this
    simp [SplitN, this]
  unfold ServerCommand.Parse at hok
  simp only [hsplit, hd] at hok
  by_cases h2 : 2 < head.length
  · simp only [h2, if_true] at hok ⊢
    repeat' split at hok
    all_goals first | (cases hok; done) | skip
    all_goals
      injection hok with hr
      subst hr
      exact ⟨rfl, by assumption⟩
  · simp only [h2, if_false] at hok ⊢
    repeat' split at hok
    all_goals first | (cases hok; done) | skip
    all_goals
      injection hok with hr
      subst hr
      exact ⟨rfl, rfl⟩

set_option maxRecDepth 100000 in
/-- The amended C11 on a success packet whose detail fragment is `[1]`, the
byte 0x0B and `AAAA`. -/
theorem Parse_raw_payload_witness :
    (ServerCommand.Parse textJSON zeroPacket (previewPacket (ascii "[1]" ++ 0x0b :: ascii "AAAA")) =
        .ok ⟨0x06, ascii "PreviewWebtoonFromClient", 0, some (ascii "[1]"), some (ascii "AAAA")⟩ ∧
      protocol.DetailSeparator ∉ ascii "[1]") ∧
    (if 2 < (ascii "[1]").length then
      (⟨0x06, ascii "PreviewWebtoonFromClient", 0, some (ascii "[1]"), some (ascii "AAAA")⟩ :
        ServerCommand Bytes).Data = some (ascii "AAAA") ∧
      textJSON.Unmarshal (ascii "[1]") =
        some (⟨0x06, ascii "PreviewWebtoonFromClient", 0, some (ascii "[1]"),
          some (ascii "AAAA")⟩ : ServerCommand Bytes).Detail
    else
      (⟨0x06, ascii "PreviewWebtoonFromClient", 0, some (ascii "[1]"), some (ascii "AAAA")⟩ :
        ServerCommand Bytes).Data = zeroPacket.Data ∧
      (⟨0x06, ascii "PreviewWebtoonFromClient", 0, some (ascii "[1]"), some (ascii "AAAA")⟩ :
        ServerCommand Bytes).Detail = zeroPacket.Detail) :=
  ⟨by decide,
   Parse_raw_payload textJSON zeroPacket
    ⟨0x06, ascii "PreviewWebtoonFromClient", 0, some (ascii "[1]"), some (ascii "AAAA")⟩
    (previewPacket (ascii "[1]" ++ 0x0b :: ascii "AAAA"))
    (ascii "tcp_remote_command_protocol_version=1.0") (ascii "command=PreviewWebtoonFromClient")
    (ascii "serial=0") (ascii "detail=" ++ (ascii "[1]" ++ 0x0b :: ascii "AAAA"))
    (ascii "[1]") (ascii "AAAA") (by decide) (by decide) (by decide) (by decide)⟩

set_option maxRecDepth 100000 in
/-- C11 fails on a short head. `Parse` accepts the success packets whose detail
fragment is `{}`, the byte 0x0B and `AAAA`, or the byte 0x0B and `AAAA` alone;
the fragment contains 0x0B with `AAAA` after it, and `Data` is left nil. -/
theorem Parse_short_head_drops_payload :
    0x0b ∈ ascii "{}" ++ 0x0b :: ascii "AAAA" ∧
    ServerCommand.Parse textJSON zeroPacket (previewPacket (ascii "{}" ++ 0x0b :: ascii "AAAA")) =
      .ok ⟨0x06, ascii "PreviewWebtoonFromClient", 0, none, none⟩ ∧
    ServerCommand.Parse textJSON zeroPacket (previewPacket (0x0b :: ascii "AAAA")) =
      .ok ⟨0x06, ascii "PreviewWebtoonFromClient", 0, none, none⟩ := by
  decide

end packets


/-! ## The serial registry -/

namespace Client

variable {J : Type}

theorem andThen_halted (c : Client J) (next : Client J → Client J) (x : String)
    (h : c.halted = some x) : c.andThen next = c := by
  simp [andThen, h]

theorem andThen_running (c : Client J) (next : Client J → Client J) (h : c.halted = none) :
    c.andThen next = next c := by
  simp [andThen, h]

/-- A halted session passes through the rest of an iteration unchanged. -/
theorem foldl_andThen_halted {α : Type} (step : Client J → α → Client J) (l : List α)
    (c : Client J) (x : String) (h : c.halted = some x) :
    l.foldl (fun c a => c.andThen fun c => step c a) c = c := by
  induction l with
  | nil => rfl
  | cons a rest ih => rw [List.foldl_cons, andThen_halted c _ x h, ih]

/-- The shards before the one of the only pending entry hold nothing. -/
theorem foldl_other_shards (r : Runner J) (held : List Nat) (reason : String)
    (k : Nat) (callback : ClientCommandCallback) (l : List Nat) (c : Client J)
    (hc : c.callbacks = [(k, callback)]) (hl : cmap.shardOf k ∉ l) :
    l.foldl (fun c idx =>
      c.andThen fun c =>
        (cmap.shardItems c.callbacks idx).foldl (fun c e =>
          c.andThen fun c => c.callWith r (idx :: held) e.2 none (some reason)) c) c = c := by
  induction l with
  | nil => rfl
  | cons idx rest ih =>
    have hne : cmap.shardOf k ≠ idx := fun h => hl (by simp [h])
    have hrest : cmap.shardOf k ∉ rest := fun h => hl (by simp [h])
    have hitems : cmap.shardItems c.callbacks idx = [] := by
      simp [cmap.shardItems, hc, hne]
    rw [List.foldl_cons]
    have hstep : (c.andThen fun c =>
        (cmap.shardItems c.callbacks idx).foldl (fun c e =>
          c.andThen fun c => c.callWith r (idx :: held) e.2 none (some reason)) c) = c := by
      cases hh : c.halted with
      | some x => exact andThen_halted c _ x hh
      | none => rw [andThen_running c _ hh, hitems]; rfl
    rw [hstep]
    exact ih hrest

/-- With one entry pending whose call halts the goroutine, the iteration is
that one call, made under the read lock of the shard of the entry. -/
theorem cancelAllWith_single (r : Runner J) (held : List Nat) (reason : String)
    (k : Nat) (callback : ClientCommandCallback) (l1 l2 : List Nat) (c : Client J) (x : String)
    (hrange : List.range 32 = l1 ++ cmap.shardOf k :: l2) (hl1 : cmap.shardOf k ∉ l1)
    (hc : c.callbacks = [(k, callback)]) (hrun : c.halted = none)
    (hcall : (c.callWith r (cmap.shardOf k :: held) callback none (some reason)).halted = some x) :
    c.cancelAllWith r held reason =
      c.callWith r (cmap.shardOf k :: held) callback none (some reason) := by
  unfold cancelAllWith
  rw [hrange, List.foldl_append, foldl_other_shards r held reason k callback l1 c hc hl1,
    List.foldl_cons]
  have hitems : cmap.shardItems c.callbacks (cmap.shardOf k) = [(k, callback)] := by
    simp [cmap.shardItems, hc]
  have hstep : (c.andThen fun c =>
      (cmap.shardItems c.callbacks (cmap.shardOf k)).foldl (fun c e =>
        c.andThen fun c => c.callWith r (cmap.shardOf k :: held) e.2 none (some reason)) c) =
      c.callWith r (cmap.shardOf k :: held) callback none (some reason) := by
    rw [andThen_running c _ hrun, hitems, List.foldl_cons, List.foldl_nil,
      andThen_running c _ hrun]
  rw [hstep]
  exact foldl_andThen_halted _ l2 _ x hcall

theorem runDepth_zero (json : JSON J) (held : List Nat) (callback : ClientCommandCallback)
    (c : Client J) (scp : Option (ServerCommand J)) (err : Error) :
    ClientCommandCallback.runDepth json 0 held callback c scp err =
      { c with halted := some "call depth" } := rfl

theorem runDepth_sink (json : JSON J) (n : Nat) (held : List Nat) (id : Nat)
    (c : Client J) (scp : Option (ServerCommand J)) (err : Error) :
    ClientCommandCallback.runDepth json (n + 1) held (.sink id) c scp err =
      { c with delivered := c.delivered ++ [⟨id, scp, err⟩] } := rfl

theorem runDepth_reauthenticate_error (json : JSON J) (n : Nat) (held : List Nat)
    (callback : ClientCommandCallback) (c : Client J) (scp : Option (ServerCommand J))
    (e : String) :
    ClientCommandCallback.runDepth json (n + 1) held (.reauthenticate callback) c scp (some e) =
      ClientCommandCallback.runDepth json n held callback c scp (some e) := rfl

theorem runDepth_closer_error (json : JSON J) (n : Nat) (held : List Nat)
    (closer : ClientCommandCallback)
    (hcl : closer = .reconnected ∨ closer = .keepaliveReauth)
    (c : Client J) (scp : Option (ServerCommand J)) (e : String) :
    ClientCommandCallback.runDepth json (n + 1) held closer c scp (some e) =
      (c.CloseWith (ClientCommandCallback.runDepth json n) held).1 := by
  rcases hcl with h | h <;> subst h <;> rfl

theorem CloseWith_halted (r : Runner J) (held : List Nat) (c : Client J) (x : String)
    (h : (c.ResetWith r held).halted = some x) : (c.CloseWith r held).1 = c.ResetWith r held := by
  unfold CloseWith
  simp only [h]

/-- A `Reset` that ends in a call which halts the goroutine is that call: the
map is not cleared and the counter not zeroed. -/
theorem ResetWith_single (r : Runner J) (held : List Nat) (k : Nat)
    (callback : ClientCommandCallback) (l1 l2 : List Nat) (c : Client J) (x : String)
    (hrange : List.range 32 = l1 ++ cmap.shardOf k :: l2) (hl1 : cmap.shardOf k ∉ l1)
    (hc : c.callbacks = [(k, callback)]) (hrun : c.halted = none)
    (hcall : (({ c with alive := false } : Client J).callWith r (cmap.shardOf k :: held) callback
      none (some "client-side reset")).halted = some x) :
    c.ResetWith r held =
      ({ c with alive := false } : Client J).callWith r (cmap.shardOf k :: held) callback none
        (some "client-side reset") := by
  have h0 : (if c.alive then { c with alive := false } else c) =
      ({ c with alive := false } : Client J) := by
    cases ha : c.alive with
    | true => simp
    | false =>
      cases c
      simp only [Bool.false_eq_true, if_false]
      simp_all
  unfold ResetWith
  simp only [h0]
  rw [cancelAllWith_single r held "client-side reset" k callback l1 l2
    ({ c with alive := false } : Client J) x hrange hl1 hc hrun hcall]
  exact andThen_halted _ _ x hcall

/-- The first statement of `Reset` leaves `alive` false whether or not it was true. -/
theorem alive_false_eq (c : Client J) :
    (if c.alive then { c with alive := false } else c) = ({ c with alive := false } : Client J) := by
  cases ha : c.alive with
  | true => simp
  | false =>
    cases c
    simp only [Bool.false_eq_true, if_false]
    simp_all

/-- Calling the completions of embedders one after the other. -/
theorem foldl_call_sinks (json : JSON J) (n : Nat) (held : List Nat) (reason : String)
    (l : List (Nat × Nat)) :
    ∀ c : Client J, c.halted = none →
      (l.map fun e => (e.1, ClientCommandCallback.sink e.2)).foldl (fun c e =>
        c.andThen fun c =>
          c.callWith (ClientCommandCallback.runDepth json (n + 1)) held e.2 none (some reason)) c =
      { c with
        calls := c.calls ++ l.map fun e => ⟨.sink e.2, none, some reason⟩
        delivered := c.delivered ++ l.map fun e => ⟨e.2, none, some reason⟩ } := by
  induction l with
  | nil => intro c _; simp
  | cons e rest ih =>
    intro c hrun
    have hstep : c.callWith (ClientCommandCallback.runDepth json (n + 1)) held (.sink e.2) none
        (some reason) =
        { c with
          calls := c.calls ++ [⟨.sink e.2, none, some reason⟩]
          delivered := c.delivered ++ [⟨e.2, none, some reason⟩] } := by
      unfold callWith
      rw [runDepth_sink]
    rw [List.map_cons, List.foldl_cons, andThen_running c _ hrun, hstep]
    refine (ih _ ?_).trans ?_
    · exact hrun
    · simp

/-- The iteration over a registry of completions of embedders, along a list of shards. -/
theorem foldl_shards_sinks (json : JSON J) (n : Nat) (held : List Nat) (reason : String)
    (ids : List (Nat × Nat)) (shards : List Nat) :
    ∀ c : Client J, c.callbacks = ids.map (fun e => (e.1, ClientCommandCallback.sink e.2)) →
      c.halted = none →
      shards.foldl (fun c idx =>
        c.andThen fun c =>
          (cmap.shardItems c.callbacks idx).foldl (fun c e =>
            c.andThen fun c =>
              c.callWith (ClientCommandCallback.runDepth json (n + 1)) (idx :: held) e.2 none
                (some reason)) c) c =
      { c with
        calls := c.calls ++
          (shards.flatMap fun idx => ids.filter fun e => cmap.shardOf e.1 == idx).map
            fun e => ⟨.sink e.2, none, some reason⟩
        delivered := c.delivered ++
          (shards.flatMap fun idx => ids.filter fun e => cmap.shardOf e.1 == idx).map
            fun e => ⟨e.2, none, some reason⟩ } := by
  induction shards with
  | nil => intro c _ _; simp
  | cons idx rest ih =>
    intro c hc hrun
    have hitems : cmap.shardItems c.callbacks idx =
        (ids.filter fun e => cmap.shardOf e.1 == idx).map
          fun e => (e.1, ClientCommandCallback.sink e.2) := by
      rw [hc, cmap.shardItems, List.filter_map]
      rfl
    rw [List.foldl_cons, andThen_running c _ hrun, hitems,
      foldl_call_sinks json n (idx :: held) reason _ c hrun]
    refine (ih _ ?_ ?_).trans ?_
    · exact hc
    · exact hrun
    · simp [List.flatMap_cons]


/-- On a registry of completions of embedders `Reset` does what it is meant to:
each completion is called once with "client-side reset", shard after shard,
and afterwards the map is empty, the counter 0 and `alive` false. -/
theorem ResetWith_sinks (json : JSON J) (n : Nat) (held : List Nat) (ids : List (Nat × Nat))
    (c : Client J) (hc : c.callbacks = ids.map (fun e => (e.1, ClientCommandCallback.sink e.2)))
    (hrun : c.halted = none) (hheld : ∀ e ∈ ids, cmap.shardOf e.1 ∉ held) :
    c.ResetWith (ClientCommandCallback.runDepth json (n + 1)) held =
      { c with
        alive := false
        callbacks := []
        atomicSerial := 0
        calls := c.calls ++
          ((List.range 32).flatMap fun idx => ids.filter fun e => cmap.shardOf e.1 == idx).map
            fun e => ⟨.sink e.2, none, some "client-side reset"⟩
        delivered := c.delivered ++
          ((List.range 32).flatMap fun idx => ids.filter fun e => cmap.shardOf e.1 == idx).map
            fun e => ⟨e.2, none, some "client-side reset"⟩ } := by
  have hany : (c.callbacks.any fun e => decide (cmap.shardOf e.1 ∈ held)) = false := by
    rw [List.any_eq_false]
    intro e he
    rw [hc] at he
    obtain ⟨x, hx, rfl⟩ := List.mem_map.1 he
    simpa using hheld x hx
  have h1 := foldl_shards_sinks json n held "client-side reset" ids (List.range 32)
    ({ c with alive := false } : Client J) hc hrun
  unfold ResetWith cancelAllWith
  simp only [alive_false_eq]
  rw [h1]
  simp [andThen, hrun, clearWith, hany]

/-- On a registry of completions of embedders a server-side reset does what
it is meant to: each completion is called once with "server-side reset",
the map is emptied and the counter set to 1. -/
theorem callbackForSerialWith_reset_sinks (json : JSON J) (n : Nat) (ids : List (Nat × Nat))
    (c : Client J) (scp : ServerCommand J)
    (hc : c.callbacks = ids.map (fun e => (e.1, ClientCommandCallback.sink e.2)))
    (hrun : c.halted = none) (htype : scp.Typ = TypeClientCommand) (hserial : scp.Serial = 0)
    (hfree : c.callbacks.lookup 0 = none) :
    c.callbackForSerialWith (ClientCommandCallback.runDepth json (n + 1)) scp.Serial (some scp)
        none =
      { c with
        callbacks := []
        atomicSerial := 1
        timeout := c.timeout + 1
        calls := c.calls ++
          ((List.range 32).flatMap fun idx => ids.filter fun e => cmap.shardOf e.1 == idx).map
            fun e => ⟨.sink e.2, none, some "server-side reset"⟩
        delivered := c.delivered ++
          ((List.range 32).flatMap fun idx => ids.filter fun e => cmap.shardOf e.1 == idx).map
            fun e => ⟨e.2, none, some "server-side reset"⟩ } := by
  have h1 := foldl_shards_sinks json n [] "server-side reset" ids (List.range 32) c hc hrun
  unfold callbackForSerialWith cancelAllWith
  simp only [cmap.Pop, hserial, hfree, htype, if_true]
  rw [h1]
  simp [andThen, hrun, clearWith]

set_option maxRecDepth 100000 in
/-- The iteration goes by shard, not by serial: with completions pending for
serials 1 and 2, which hash into shards 14 and 13, `Reset` reaches the one for
serial 2 first. -/
theorem Reset_shard_order :
    cmap.shardOf 1 = 14 ∧ cmap.shardOf 2 = 13 ∧
    ((⟨3, idleConn, [(1, .sink 1), (2, .sink 2)], [], [], 0, true, 0, [], [], none⟩ :
      Client Bytes).Reset textJSON).delivered =
      [⟨2, none, some "client-side reset"⟩, ⟨1, none, some "client-side reset"⟩] := by
  decide

/-- The closures of `reconnect` and `keepalive` around `c.Close()`, pending
behind the closure of `Reauthenticate`, send `Reset` into itself: however deep
the calls are followed, the goroutine has not come back, the completion has
been called once for every second level, and map, counter and connection are
as they were. -/
theorem ResetWith_recurs (json : JSON J) (closer : ClientCommandCallback)
    (hcl : closer = .reconnected ∨ closer = .keepaliveReauth) (k : Nat) (l1 l2 : List Nat)
    (hrange : List.range 32 = l1 ++ cmap.shardOf k :: l2) (hl1 : cmap.shardOf k ∉ l1) (n : Nat) :
    ∀ (held : List Nat) (c : Client J),
      c.callbacks = [(k, .reauthenticate closer)] → c.halted = none →
      (c.ResetWith (ClientCommandCallback.runDepth json n) held).halted = some "call depth" ∧
      (c.ResetWith (ClientCommandCallback.runDepth json n) held).calls =
        c.calls ++ List.replicate (n / 2 + 1)
          ⟨.reauthenticate closer, none, some "client-side reset"⟩ ∧
      (c.ResetWith (ClientCommandCallback.runDepth json n) held).callbacks = c.callbacks ∧
      (c.ResetWith (ClientCommandCallback.runDepth json n) held).atomicSerial = c.atomicSerial ∧
      (c.ResetWith (ClientCommandCallback.runDepth json n) held).conn = c.conn := by
  induction n using Nat.strong_induction_on with
  | _ n ih =>
    intro held c hc hrun
    match n, ih with
    | 0, _ =>
      have hcall : ({ c with alive := false } : Client J).callWith
          (ClientCommandCallback.runDepth json 0) (cmap.shardOf k :: held)
          (.reauthenticate closer) none (some "client-side reset") =
          { c with alive := false, halted := some "call depth",
                   calls := c.calls ++
                     [⟨.reauthenticate closer, none, some "client-side reset"⟩] } := rfl
      rw [ResetWith_single _ held k _ l1 l2 c "call depth" hrange hl1 hc hrun
        (by rw [hcall]), hcall]
      simp
    | 1, _ =>
      have hcall : ({ c with alive := false } : Client J).callWith
          (ClientCommandCallback.runDepth json 1) (cmap.shardOf k :: held)
          (.reauthenticate closer) none (some "client-side reset") =
          { c with alive := false, halted := some "call depth",
                   calls := c.calls ++
                     [⟨.reauthenticate closer, none, some "client-side reset"⟩] } := rfl
      rw [ResetWith_single _ held k _ l1 l2 c "call depth" hrange hl1 hc hrun
        (by rw [hcall]), hcall]
      simp
    | m + 2, ih =>
      have hm := ih m (by omega) (cmap.shardOf k :: held)
        ({ c with alive := false,
                  calls := c.calls ++ [⟨.reauthenticate closer, none, some "client-side reset"⟩] })
        hc hrun
      obtain ⟨h1, h2, h3, h4, h5⟩ := hm
      have hcall : ({ c with alive := false } : Client J).callWith
          (ClientCommandCallback.runDepth json (m + 2)) (cmap.shardOf k :: held)
          (.reauthenticate closer) none (some "client-side reset") =
          ({ c with alive := false,
                    calls := c.calls ++
                      [⟨.reauthenticate closer, none, some "client-side reset"⟩] } :
            Client J).ResetWith (ClientCommandCallback.runDepth json m)
              (cmap.shardOf k :: held) := by
        unfold callWith
        rw [runDepth_reauthenticate_error, runDepth_closer_error json m _ closer hcl,
          CloseWith_halted _ _ _ _ h1]
      rw [ResetWith_single _ held k _ l1 l2 c "call depth" hrange hl1 hc hrun
        (by rw [hcall]; exact h1), hcall]
      refine ⟨h1, ?_, h3, h4, h5⟩
      rw [h2]
      have : (m + 2) / 2 + 1 = (m / 2 + 1) + 1 := by omega
      rw [this]
      simp [List.replicate_succ]

/-- A reset packet that arrives while the closure of `Reauthenticate` around a
closing closure is the only pending entry: the one call made for the reset
goes into `c.Close()` and from there into the recursion of `Reset`; the map is
not cleared and the counter not set. -/
theorem callbackForSerialWith_recurs (json : JSON J) (closer : ClientCommandCallback)
    (hcl : closer = .reconnected ∨ closer = .keepaliveReauth) (k : Nat) (l1 l2 : List Nat)
    (hrange : List.range 32 = l1 ++ cmap.shardOf k :: l2) (hl1 : cmap.shardOf k ∉ l1)
    (hk : k ≠ 0) (n : Nat) (c : Client J) (scp : ServerCommand J)
    (htype : scp.Typ = TypeClientCommand) (hserial : scp.Serial = 0)
    (hc : c.callbacks = [(k, .reauthenticate closer)]) (hrun : c.halted = none) :
    (c.callbackForSerialWith (ClientCommandCallback.runDepth json (n + 2)) scp.Serial
      (some scp) none).halted = some "call depth" ∧
    (c.callbackForSerialWith (ClientCommandCallback.runDepth json (n + 2)) scp.Serial
      (some scp) none).calls =
      c.calls ++ ⟨.reauthenticate closer, none, some "server-side reset"⟩ ::
        List.replicate (n / 2 + 1) ⟨.reauthenticate closer, none, some "client-side reset"⟩ ∧
    (c.callbackForSerialWith (ClientCommandCallback.runDepth json (n + 2)) scp.Serial
      (some scp) none).callbacks = c.callbacks ∧
    (c.callbackForSerialWith (ClientCommandCallback.runDepth json (n + 2)) scp.Serial
      (some scp) none).atomicSerial = c.atomicSerial := by
  obtain ⟨h1, h2, h3, h4, _⟩ := ResetWith_recurs json closer hcl k l1 l2 hrange hl1 n
    [cmap.shardOf k]
    ({ c with calls := c.calls ++ [⟨.reauthenticate closer, none, some "server-side reset"⟩] })
    hc hrun
  have hcall : c.callWith (ClientCommandCallback.runDepth json (n + 2)) [cmap.shardOf k]
      (.reauthenticate closer) none (some "server-side reset") =
      ({ c with calls := c.calls ++
          [⟨.reauthenticate closer, none, some "server-side reset"⟩] } : Client J).ResetWith
        (ClientCommandCallback.runDepth json n) [cmap.shardOf k] := by
    unfold callWith
    rw [runDepth_reauthenticate_error, runDepth_closer_error json n _ closer hcl,
      CloseWith_halted _ _ _ _ h1]
  have hcancel := cancelAllWith_single (ClientCommandCallback.runDepth json (n + 2)) []
    "server-side reset" k (.reauthenticate closer) l1 l2 c "call depth" hrange hl1 hc hrun
    (by rw [hcall]; exact h1)
  have hpop : cmap.Pop c.callbacks 0 = (c.callbacks, none) := by
    have hk0 : (0 == k) = false := by simpa using fun h : 0 = k => hk h.symm
    simp [cmap.Pop, hc, hk, List.lookup, hk0]
  have hres : c.callbackForSerialWith (ClientCommandCallback.runDepth json (n + 2)) scp.Serial
      (some scp) none =
      ({ c with calls := c.calls ++
          [⟨.reauthenticate closer, none, some "server-side reset"⟩] } : Client J).ResetWith
        (ClientCommandCallback.runDepth json n) [cmap.shardOf k] := by
    unfold callbackForSerialWith
    simp only [hserial, hpop, htype, if_true, hcancel, hcall]
    rw [andThen_halted _ _ "call depth" h1, andThen_halted _ _ "call depth" h1]
  rw [hres]
  refine ⟨h1, ?_, h3, h4⟩
  rw [h2]
  simp

set_option maxRecDepth 100000 in
/-- C8, at a concrete input. After `reconnect` has sent its re-authentication the
registry holds, under serial 0, the closure of `Reauthenticate` around the
closure of `reconnect`, which calls `c.Close()` on an error. `Reset` calls that
completion; it calls `Close`, which calls `Reset`, whose iteration meets the
same entry because the map has not been cleared. However deep the calls are
followed, `Reset` has not returned, the completion has been called again on
every second level (twice from depth 2 on), and the map is never emptied. -/
theorem Reset_reenters_through_Close :
    Client.Reauthenticate textJSON (freshClient idleConn (ascii "G#1:2022.12")) .reconnected =
      some reconnectedSession ∧
    reconnectedSession.callbacks = [(0, .reauthenticate .reconnected)] ∧
    (∀ n : Nat,
      (reconnectedSession.ResetWith (ClientCommandCallback.runDepth textJSON n) []).halted =
        some "call depth" ∧
      (reconnectedSession.ResetWith (ClientCommandCallback.runDepth textJSON n) []).calls =
        List.replicate (n / 2 + 1) ⟨.reauthenticate .reconnected, none, some "client-side reset"⟩ ∧
      (reconnectedSession.ResetWith (ClientCommandCallback.runDepth textJSON n) []).callbacks =
        [(0, .reauthenticate .reconnected)]) ∧
    (reconnectedSession.Reset textJSON).halted = some "call depth" ∧
    (reconnectedSession.Reset textJSON).calls =
      List.replicate (callDepth / 2 + 1)
        ⟨.reauthenticate .reconnected, none, some "client-side reset"⟩ ∧
    (reconnectedSession.Reset textJSON).callbacks = [(0, .reauthenticate .reconnected)] := by
  have hstate : Client.Reauthenticate textJSON (freshClient idleConn (ascii "G#1:2022.12"))
      .reconnected = some reconnectedSession := by decide
  have hc : reconnectedSession.callbacks = [(0, .reauthenticate .reconnected)] := by decide
  have hrun : reconnectedSession.halted = none := by decide
  have hcalls : reconnectedSession.calls = [] := by decide
  have hall : ∀ n : Nat,
      (reconnectedSession.ResetWith (ClientCommandCallback.runDepth textJSON n) []).halted =
        some "call depth" ∧
      (reconnectedSession.ResetWith (ClientCommandCallback.runDepth textJSON n) []).calls =
        List.replicate (n / 2 + 1) ⟨.reauthenticate .reconnected, none, some "client-side reset"⟩ ∧
      (reconnectedSession.ResetWith (ClientCommandCallback.runDepth textJSON n) []).callbacks =
        [(0, .reauthenticate .reconnected)] := by
    intro n
    obtain ⟨h1, h2, h3, _, _⟩ := ResetWith_recurs textJSON .reconnected (Or.inl rfl) 0
      (List.range 15) (List.range' 16 16) (by decide) (by decide) n [] reconnectedSession hc hrun
    refine ⟨h1, ?_, ?_⟩
    · rw [h2, hcalls]; rfl
    · rw [h3, hc]
  exact ⟨hstate, hc, hall, hall callDepth⟩

set_option maxRecDepth 100000 in
/-- C6, at a concrete input. The keepalive has a heartbeat in flight under
serial 1 and the server answers it with an error packet: the closure of
`keepalive` sets `alive` to false and sends the re-authentication under
serial 2. Then a packet of type 0x01 and serial 0 is dispatched, with nothing
pending under serial 0. The one pending completion is called with
"server-side reset", calls `c.Close()`, and `Reset` calls it again with
"client-side reset" and goes into itself: however deep the calls are followed,
the dispatch has not returned, the map is not empty and the counter is 3. -/
theorem callbackForSerial_reset_reenters :
    (Client.loop textJSON 1 heartbeatSession).1.callbacks =
      [(2, .reauthenticate .keepaliveReauth)] ∧
    (Client.loop textJSON 1 heartbeatSession).1.callbacks.lookup 0 = none ∧
    (Client.loop textJSON 1 heartbeatSession).1.atomicSerial = 3 ∧
    (Client.loop textJSON 1 heartbeatSession).1.alive = false ∧
    (Client.loop textJSON 1 heartbeatSession).1.calls =
      [⟨.heartbeat .keepaliveHeartbeat, some ⟨0x15, commands.TellHeartbeat, 1, none, none⟩, none⟩] ∧
    (∀ n : Nat,
      ((Client.loop textJSON 1 heartbeatSession).1.callbackForSerialWith
        (ClientCommandCallback.runDepth textJSON (n + 2)) 0
        (some ⟨0x01, commands.TellHeartbeat, 0, none, none⟩) none).halted = some "call depth" ∧
      ((Client.loop textJSON 1 heartbeatSession).1.callbackForSerialWith
        (ClientCommandCallback.runDepth textJSON (n + 2)) 0
        (some ⟨0x01, commands.TellHeartbeat, 0, none, none⟩) none).calls =
        (Client.loop textJSON 1 heartbeatSession).1.calls ++
          ⟨.reauthenticate .keepaliveReauth, none, some "server-side reset"⟩ ::
          List.replicate (n / 2 + 1)
            ⟨.reauthenticate .keepaliveReauth, none, some "client-side reset"⟩ ∧
      ((Client.loop textJSON 1 heartbeatSession).1.callbackForSerialWith
        (ClientCommandCallback.runDepth textJSON (n + 2)) 0
        (some ⟨0x01, commands.TellHeartbeat, 0, none, none⟩) none).callbacks =
        [(2, .reauthenticate .keepaliveReauth)] ∧
      ((Client.loop textJSON 1 heartbeatSession).1.callbackForSerialWith
        (ClientCommandCallback.runDepth textJSON (n + 2)) 0
        (some ⟨0x01, commands.TellHeartbeat, 0, none, none⟩) none).atomicSerial = 3) ∧
    ((Client.loop textJSON 1 heartbeatSession).1.callbackForSerial textJSON 0
      (some ⟨0x01, commands.TellHeartbeat, 0, none, none⟩) none).halted = some "call depth" := by
  have hc : (Client.loop textJSON 1 heartbeatSession).1.callbacks =
      [(2, .reauthenticate .keepaliveReauth)] := by decide
  have hrun : (Client.loop textJSON 1 heartbeatSession).1.halted = none := by decide
  have hser : (Client.loop textJSON 1 heartbeatSession).1.atomicSerial = 3 := by decide
  have hall := fun n : Nat => callbackForSerialWith_recurs textJSON .keepaliveReauth (Or.inr rfl) 2
    (List.range 13) (List.range' 14 18) (by decide) (by decide) (by decide) n
    (Client.loop textJSON 1 heartbeatSession).1 ⟨0x01, commands.TellHeartbeat, 0, none, none⟩
    rfl rfl hc hrun
  refine ⟨hc, by rw [hc]; decide, hser, by decide, by decide, ?_, ?_⟩
  · intro n
    obtain ⟨h1, h2, h3, h4⟩ := hall n
    exact ⟨h1, h2, by rw [h3, hc], by rw [h4, hser]⟩
  · exact (hall (callDepth - 2)).1

/-- C7 fails where the counter is ahead of the packet: with the counter at 10
and nothing pending, a packet of type 0x01 and serial 3 sets the counter to 4. -/
theorem callbackForSerial_lowers_counter :
    busySession.callbacks.lookup 3 = none ∧
    busySession.atomicSerial = 10 ∧
    (busySession.callbackForSerial textJSON 3
      (some ⟨0x01, commands.TellHeartbeat, 3, none, none⟩) none).atomicSerial = 4 := by
  decide

/-- C7, amended. A packet of type 0x01 with a non-zero serial for which nothing
is pending calls no completion and leaves the pending map as it is; it sets
the counter to the received serial plus one (modulo 2 ^ 32). -/
theorem callbackForSerial_server_command (json : JSON J) (c : Client J) (scp : ServerCommand J)
    (htype : scp.Typ = TypeClientCommand) (hserial : scp.Serial ≠ 0)
    (hfree : c.callbacks.lookup scp.Serial = none) :
    (c.callbackForSerial json scp.Serial (some scp) none).calls = c.calls ∧
    (c.callbackForSerial json scp.Serial (some scp) none).delivered = c.delivered ∧
    (c.callbackForSerial json scp.Serial (some scp) none).callbacks = c.callbacks ∧
    (c.callbackForSerial json scp.Serial (some scp) none).atomicSerial =
      (scp.Serial + 1) % 2 ^ 32 := by
  simp [callbackForSerial, callbackForSerialWith, cmap.Pop, hserial, hfree, htype]

/-- The amended C7 on a session with serial 5 in flight and a packet of serial 3. -/
theorem callbackForSerial_server_command_witness :
    ((⟨10, idleConn, [(5, .sink 0)], [], [], 0, true, 0, [], [], none⟩ :
      Client Bytes).callbackForSerial textJSON 3
      (some ⟨0x01, commands.TellHeartbeat, 3, none, none⟩) none).callbacks = [(5, .sink 0)] :=
  (callbackForSerial_server_command textJSON
    (⟨10, idleConn, [(5, .sink 0)], [], [], 0, true, 0, [], [], none⟩ : Client Bytes)
    ⟨0x01, commands.TellHeartbeat, 3, none, none⟩ rfl (by decide) (by decide)).2.2.1

end Client

/-! ## Sending -/

/-- A completion of the embedder, called from the top of a goroutine. -/
theorem ClientCommandCallback.run_sink {J : Type} (json : JSON J) (held : List Nat) (id : Nat)
    (c : Client J) (scp : Option (ServerCommand J)) (err : Error) :
    ClientCommandCallback.run json held (.sink id) c scp err =
      { c with delivered := c.delivered ++ [⟨id, scp, err⟩] } :=
  Client.runDepth_sink json (callDepth - 1) held id c scp err

/-- What `SendCommand` does when it goes on to write and `Write` returns an
error, for a completion of the embedder. -/
theorem Client.SendCommand_write_error {J : Type} (json : JSON J) (c : Client J)
    (command : Bytes) (detail : Option J) (id : Nat) (conn : Conn)
    (e : String) (hgo : (!c.alive && command != commands.Authenticate) = false)
    (hrun : c.halted = none)
    (hw : ClientCommand.Write json ⟨command, c.atomicSerial, detail, .sink id⟩ c.conn =
      some (conn, some e)) :
    c.SendCommand json command detail (.sink id) = some
      { c with
        atomicSerial := (c.atomicSerial + 1) % 2 ^ 32
        conn := conn
        timeout := c.timeout + 1
        callbacks := cmap.Set c.callbacks c.atomicSerial (.sink id)
        calls := c.calls ++ [⟨.sink id, none, some ("failed writing command: " ++ e)⟩]
        delivered := c.delivered ++ [⟨id, none, some ("failed writing command: " ++ e)⟩] } := by
  simp [Client.SendCommand, Client.SendCommandWith, hgo, hw, Client.callWith,
    ClientCommandCallback.run_sink, Client.andThen, Client.setWith, hrun]

theorem longCommand_write_error :
    ClientCommand.Write textJSON ⟨List.replicate 8192 65, 0, none, .sink 0⟩ brokenConn =
      some (brokenConn, some "failed writing command packet body: broken pipe") := by
  have hs := packets.ClientCommand.String_eq textJSON
    ⟨List.replicate 8192 65, 0, none, .sink 0⟩ [] rfl
  refine packets.Write_body_error textJSON _ brokenConn _ "broken pipe" hs ?_ rfl rfl
  simp only [List.length_cons, List.length_append, List.length_replicate]
  omega

set_option maxRecDepth 100000 in
/-- C4, at concrete inputs, on an alive session whose socket refuses every
write. A command too long for the write buffer: `SendCommand` calls the
completion with the write error and still registers it under serial 0, so a
later `Reset` calls it a second time. A short command: the failed flush goes
unnoticed, the completion is not called and is registered all the same. -/
theorem SendCommand_write_error_keeps_entry :
    Client.SendCommand textJSON brokenSession (List.replicate 8192 65) none (.sink 0) =
      some afterFailedSend ∧
    afterFailedSend.callbacks = [(0, .sink 0)] ∧
    afterFailedSend.delivered =
      [⟨0, none, some "failed writing command: failed writing command packet body: broken pipe"⟩] ∧
    (afterFailedSend.Reset textJSON).delivered =
      [⟨0, none, some "failed writing command: failed writing command packet body: broken pipe"⟩,
       ⟨0, none, some "client-side reset"⟩] ∧
    (Client.SendCommand textJSON brokenSession commands.TellHeartbeat none (.sink 0)).map
      (fun c => (c.calls, c.callbacks, c.conn.written)) = some ([], [(0, .sink 0)], []) := by
  refine ⟨?_, by decide, by decide, by decide, by decide⟩
  rw [Client.SendCommand_write_error textJSON brokenSession _ none 0 brokenConn _ rfl rfl
    longCommand_write_error]
  decide

/-! ## Authentication -/

/-- Called with a nil error and a packet that is not error-typed, the closure
of `Authenticate` reaches no completion of the embedder. -/
theorem authenticate_success_silent {J : Type} (json : JSON J) (held : List Nat)
    (callback : ClientCommandCallback) (newPassword : Bytes) (c : Client J)
    (scp : ServerCommand J) (h : scp.Typ ≠ TypeServerResponseError) :
    (ClientCommandCallback.run json held (.authenticate callback newPassword) c (some scp)
      none).delivered = c.delivered := by
  have hrun : ClientCommandCallback.run json held (.authenticate callback newPassword) c
      (some scp) none =
      (if scp.Typ = TypeServerResponseError then
        (ClientCommandCallback.runDepth json (callDepth - 1) held callback c (some scp)
          (some "authentication failed")).andThen fun c => { c with atomicSerial := 0 }
      else { c with password := newPassword, keepalives := c.keepalives + 1 }) := rfl
  rw [hrun, if_neg h]

set_option maxHeartbeats 4000000 in
set_option maxRecDepth 100000 in
/-- C5, at a concrete input. On a fresh session `Authenticate` is called with
the caller's completion `sink 0`; the server answers serial 0 with a
success-typed packet. The closure registered by `Authenticate` is called with
that answer, adopts the new password and starts the keepalive, and the
caller's completion is never reached. -/
theorem Authenticate_success_not_reported :
    (Client.Authenticate textJSON authSession (.sink 0) (ascii "P@ssw0rd") (ascii "AAAAAAAA")).map
      (fun c => c.callbacks) = some [(0, .authenticate (.sink 0) (ascii "AAAAAAAA"))] ∧
    (Client.Authenticate textJSON authSession (.sink 0) (ascii "P@ssw0rd") (ascii "AAAAAAAA")).map
      (fun c => (Client.loop textJSON 2 c).1.calls) =
      some [⟨.authenticate (.sink 0) (ascii "AAAAAAAA"),
        some ⟨0x06, commands.Authenticate, 0, none, none⟩, none⟩] ∧
    (Client.Authenticate textJSON authSession (.sink 0) (ascii "P@ssw0rd") (ascii "AAAAAAAA")).map
      (fun c => (Client.loop textJSON 2 c).1.delivered) = some [] ∧
    (Client.Authenticate textJSON authSession (.sink 0) (ascii "P@ssw0rd") (ascii "AAAAAAAA")).map
      (fun c => (Client.loop textJSON 2 c).1.password) = some (ascii "AAAAAAAA") ∧
    (Client.Authenticate textJSON authSession (.sink 0) (ascii "P@ssw0rd") (ascii "AAAAAAAA")).map
      (fun c => (Client.loop textJSON 2 c).1.keepalives) = some 1 := by
  refine ⟨by decide, by decide, by decide, by decide, by decide⟩

/-! ## The read loop -/

set_option maxRecDepth 100000 in
/-- C9, at a concrete input. Two well-formed answers, to serials 0 and 1, arrive
in one `Read`. The loop delivers the first, then finds the connection empty and
leaves on `EOF`: the second answer was read ahead into the `bufio.Reader` of the
first round and dropped with it, and its completion is still pending. -/
theorem loop_drops_second_packet :
    ServerCommand.Parse textJSON zeroPacket (serverPacket 0x06 commands.TellHeartbeat 0) =
      .ok ⟨0x06, commands.TellHeartbeat, 0, none, none⟩ ∧
    ServerCommand.Parse textJSON zeroPacket (serverPacket 0x06 commands.TellHeartbeat 1) =
      .ok ⟨0x06, commands.TellHeartbeat, 1, none, none⟩ ∧
    (Client.loop textJSON 3 twoAnswersSession).2 = some .reconnect ∧
    (Client.loop textJSON 3 twoAnswersSession).1.calls =
      [⟨.sink 0, some ⟨0x06, commands.TellHeartbeat, 0, none, none⟩, none⟩] ∧
    (Client.loop textJSON 3 twoAnswersSession).1.callbacks = [(1, .sink 1)] ∧
    (Client.loop textJSON 3 twoAnswersSession).1.conn.reads = [] := by
  decide

/-! ## Serial allocation -/

theorem cmap.lookup_Set (m : List (Nat × ClientCommandCallback)) (key : Nat)
    (v : ClientCommandCallback) : (cmap.Set m key v).lookup key = some v := by
  unfold cmap.Set
  induction m with
  | nil => simp [List.lookup]
  | cons e rest ih =>
    by_cases h : e.1 = key
    · simpa [List.filter, h] using ih
    · have hne : (key == e.1) = false := by
        simpa using fun h2 : key = e.1 => h h2.symm
      have hne2 : (e.1 != key) = true := by simpa using h
      simp only [List.filter, hne2, List.cons_append]
      rw [List.lookup_cons, hne]
      exact ih

/-- A sender that performs its two actions without interruption takes the
serial and leaves the counter as a run of `SendCommand` with a completion of
the embedder does: the completion is registered under the loaded serial and
the counter is the one after the add. -/
theorem Sender.step_agrees {J : Type} (json : JSON J) (c c1 : Client J) (command : Bytes)
    (detail : Option J) (id : Nat)
    (hgo : (!c.alive && command != commands.Authenticate) = false) (hrun : c.halted = none)
    (h : c.SendCommand json command detail (.sink id) = some c1) :
    Sender.step (Sender.step c.atomicSerial .start).1 (Sender.step c.atomicSerial .start).2 =
      (c1.atomicSerial, .emitted c.atomicSerial) ∧
    c1.callbacks.lookup c.atomicSerial = some (.sink id) := by
  simp only [Client.SendCommand, Client.SendCommandWith, hgo] at h
  cases hw : ClientCommand.Write json ⟨command, c.atomicSerial, detail, .sink id⟩ c.conn with
  | none => simp [hw] at h
  | some r =>
    obtain ⟨conn, err⟩ := r
    cases err with
    | none =>
      simp only [hw, Client.andThen, Client.setWith, hrun] at h
      simp at h
      subst h
      exact ⟨rfl, cmap.lookup_Set _ _ _⟩
    | some e =>
      simp only [hw, Client.callWith, ClientCommandCallback.run_sink, Client.andThen,
        Client.setWith, hrun] at h
      simp at h
      subst h
      exact ⟨rfl, cmap.lookup_Set _ _ _⟩

/-- C10, at N = 2. Two senders start on counter 0; the schedule lets both load
the counter before either adds to it. Both commands go out with serial 0,
so the serials are not {0, 1}; the counter still ends at 2. -/
theorem concurrent_senders_share_serial :
    runSchedule [0, 1, 0, 1] (0, [.start, .start]) = (2, [.emitted 0, .emitted 0]) := by
  decide

end Clipremote
